import Mathlib

/-!
SnakesInAK8s: the game core (`internal/game`) and its message handler
(`internal/ui/app.go`)

A shallow embedding of the Go package `internal/game` (types.go, board.go,
snake.go, game.go) and of `Init` and `Update` of `internal/ui/app.go`,
together with the properties their specification states.

Modelling conventions

* Go `int` is the 64-bit signed integer.  Its values are taken in `Int`, and
  the result of every `+`, `-` and `++` of the package is brought back into
  `[-2^63, 2^63)` by `wrapInt`, as Go's wrap-around does.  Comparisons and the
  division of `New` cannot overflow and are those of `Int`.
* `Direction` and `State` are Go integer types with an `iota` block of named
  constants; they are embedded as enumerations of exactly these constants.
* Slices are lists.  A Go run-time panic (indexing an empty body, `rand.Intn`
  on a non-positive bound) is the result `none`.
* The package draws from the global `math/rand` source.  The source is made
  explicit as the list of raw draws still to come; `rand.Intn n` consumes one
  raw draw `r` and yields `r % n`, which ranges over all of `[0, n)`.  A call
  that has not returned when the draws are used up also yields `none`.
* Pointer receivers become explicit state passing: a method returns the new
  value of its receiver.
-/

namespace SnakesInAK8s

/-! ## Go integers -/

/-- The Go `int` that an arithmetic expression of mathematical value `n`
evaluates to: `n` reduced modulo `2^64` into `[-2^63, 2^63)`. -/
def wrapInt (n : Int) : Int :=
  (n + 2 ^ 63) % 2 ^ 64 - 2 ^ 63

/-- A Go `int` counter after `m` executions of `++`. -/
def plusPlus (m : Nat) (n : Int) : Int :=
  Nat.iterate (fun x => wrapInt (x + 1)) m n

/-! ## types.go -/

/-- Direction represents the snake's movement direction. -/
inductive Direction where
  | Up
  | Down
  | Left
  | Right
  deriving DecidableEq, Repr

/-- Position represents a coordinate on the game board. -/
structure Position where
  X : Int
  Y : Int
  deriving DecidableEq, Repr

/-- Pod represents a Kubernetes pod displayed on the board. -/
structure Pod where
  Pos : Position
  Name : String
  Namespace : String
  deriving DecidableEq, Repr

/-! ## board.go -/

/-- Board holds the dimensions of the game area. -/
structure Board where
  Width : Int
  Height : Int
  deriving DecidableEq, Repr

/-- NewBoard creates a board with the given dimensions. -/
def NewBoard (width height : Int) : Board :=
  { Width := width, Height := height }

/-- IsOutOfBounds returns true if the position is outside the board:
`p.X < 0 || p.X >= b.Width || p.Y < 0 || p.Y >= b.Height`. -/
def Board.IsOutOfBounds (b : Board) (p : Position) : Bool :=
  decide (p.X < 0) || decide (p.X ≥ b.Width) || decide (p.Y < 0) || decide (p.Y ≥ b.Height)

/-- The call `rand.Intn(n)` on the raw draw `r`: a panic when `n <= 0`,
otherwise the value `r % n` of `[0, n)`. -/
def Intn (n : Int) (r : Nat) : Option Int :=
  if n ≤ 0 then none else some ((r : Int) % n)

/-- The map `excludeSet` built by the first loop of `RandomPosition`:
`excludeSet[p] = true` is executed for every `p` of `excluded`, starting from
the empty map (whose lookups give `false`). -/
def excludeSet (excluded : List Position) : Position → Bool :=
  excluded.foldl (fun m p => fun q => if q = p then true else m q) (fun _ => false)

/-- The sampling loop of `RandomPosition`: each round draws `X` from
`rand.Intn(b.Width)`, then `Y` from `rand.Intn(b.Height)`, and returns the
position unless `excludeSet` holds it. -/
def sampleLoop (b : Board) (ex : Position → Bool) : List Nat → Option (Position × List Nat)
  | rx :: ry :: rest =>
    match Intn b.Width rx with
    | none => none
    | some x =>
      match Intn b.Height ry with
      | none => none
      | some y =>
        if ex { X := x, Y := y } then sampleLoop b ex rest
        else some ({ X := x, Y := y }, rest)
  | _ => none

/-- RandomPosition returns a random position within the board that does not
overlap with any of the excluded positions.  The result carries the draws
that are left. -/
def Board.RandomPosition (b : Board) (excluded : List Position) (draws : List Nat) :
    Option (Position × List Nat) :=
  sampleLoop b (excludeSet excluded) draws

/-! ## snake.go -/

/-- Snake holds the state of the snake on the board. -/
structure Snake where
  Body : List Position
  Direction : Direction
  Growing : Bool
  deriving DecidableEq, Repr

/-- NewSnake creates a snake starting at the given position, heading right. -/
def NewSnake (start : Position) : Snake :=
  { Body := [start, { X := wrapInt (start.X - 1), Y := start.Y },
             { X := wrapInt (start.X - 2), Y := start.Y }],
    Direction := .Right,
    Growing := false }

/-- Head returns the current head position, `s.Body[0]`; it panics on an
empty body. -/
def Snake.Head (s : Snake) : Option Position :=
  s.Body.head?

/-- The `switch s.Direction` of `Move`: the cell next to `head`. -/
def nextCell (d : SnakesInAK8s.Direction) (head : Position) : Position :=
  match d with
  | .Up => { X := head.X, Y := wrapInt (head.Y - 1) }
  | .Down => { X := head.X, Y := wrapInt (head.Y + 1) }
  | .Left => { X := wrapInt (head.X - 1), Y := head.Y }
  | .Right => { X := wrapInt (head.X + 1), Y := head.Y }

/-- Move advances the snake one step in its current direction.
If Growing is true, the tail is not removed (the snake gets longer). -/
def Snake.Move (s : Snake) : Option Snake :=
  match s.Head with
  | none => none
  | some head =>
    let next := nextCell s.Direction head
    let body := next :: s.Body
    if s.Growing then
      some { s with Body := body, Growing := false }
    else
      some { s with Body := body.take (body.length - 1) }

/-- Grow marks the snake to grow on its next move. -/
def Snake.Grow (s : Snake) : Snake :=
  { s with Growing := true }

/-- The map `opposites` of `SetDirection`. -/
def opposites (d : SnakesInAK8s.Direction) : SnakesInAK8s.Direction :=
  match d with
  | .Up => .Down
  | .Down => .Up
  | .Left => .Right
  | .Right => .Left

/-- SetDirection changes direction, preventing 180-degree reversal. -/
def Snake.SetDirection (s : Snake) (d : SnakesInAK8s.Direction) : Snake :=
  if opposites d ≠ s.Direction then { s with Direction := d } else s

/-- The loop of `CollidesWithSelf` over the segments behind the head. -/
def collideLoop (head : Position) : List Position → Bool
  | [] => false
  | seg :: rest => if seg = head then true else collideLoop head rest

/-- CollidesWithSelf returns true if the head overlaps any body segment
(`s.Body[1:]`); it panics on an empty body. -/
def Snake.CollidesWithSelf (s : Snake) : Option Bool :=
  match s.Head with
  | none => none
  | some head => some (collideLoop head (s.Body.drop 1))

/-! ## game.go -/

/-- State represents the current phase of the game. -/
inductive State where
  | StateRunning
  | StatePaused
  | StateOver
  deriving DecidableEq, Repr

/-- Game ties together the snake, board, and pod targets. -/
structure Game where
  Snake : Snake
  Board : Board
  Pods : List Pod
  State : State
  Score : Int
  KillCount : Int
  MaxPods : Int
  deriving DecidableEq, Repr

/-- New creates a new game with default settings; Go's `/` on `int`
truncates toward zero. -/
def New (boardWidth boardHeight : Int) : Game :=
  { Snake := NewSnake { X := Int.tdiv boardWidth 4, Y := Int.tdiv boardHeight 2 },
    Board := NewBoard boardWidth boardHeight,
    Pods := [],
    State := .StateRunning,
    Score := 0,
    KillCount := 0,
    MaxPods := 3 }

/-- The loop `for _, pod := range g.Pods` of `Tick`, run over the pods still
to be visited: a pod on `head` is appended to `eaten`, the snake is told to
grow and both counters go up by one (`g.Score++`, `g.KillCount++`); any other
pod is appended to `remaining`. -/
def eatLoop (head : Position) : List Pod → Game → List Pod → List Pod → Game × List Pod × List Pod
  | [], g, eaten, remaining => (g, eaten, remaining)
  | pod :: rest, g, eaten, remaining =>
    if pod.Pos = head then
      eatLoop head rest
        { g with
          Snake := g.Snake.Grow,
          Score := wrapInt (g.Score + 1),
          KillCount := wrapInt (g.KillCount + 1) }
        (eaten ++ [pod]) remaining
    else
      eatLoop head rest g eaten (remaining ++ [pod])

/-- Tick advances the game by one frame.  Returns the game afterwards and the
list of pods that were eaten (and should be killed in k8s). -/
def Game.Tick (g : Game) : Option (Game × List Pod) :=
  if g.State ≠ .StateRunning then
    some (g, [])
  else
    match g.Snake.Move with
    | none => none
    | some moved =>
      let g1 : Game := { g with Snake := moved }
      match g1.Snake.Head with
      | none => none
      | some head =>
        if g1.Board.IsOutOfBounds head then
          some ({ g1 with State := .StateOver }, [])
        else
          match g1.Snake.CollidesWithSelf with
          | none => none
          | some true => some ({ g1 with State := .StateOver }, [])
          | some false =>
            match eatLoop head g1.Pods g1 [] [] with
            | (g2, eaten, remaining) => some ({ g2 with Pods := remaining }, eaten)

/-- The slice `occupied` of `PlacePod`: the snake's body followed by the
position of every pod, appended one by one. -/
def occupiedCells (g : Game) : List Position :=
  g.Pods.foldl (fun occupied p => occupied ++ [p.Pos]) g.Snake.Body

/-- PlacePod adds a pod to the board at a random free position.
Returns true if the pod was placed, false if the board is full.  The result
carries the game afterwards and the draws that are left. -/
def Game.PlacePod (g : Game) (name ns : String) (draws : List Nat) :
    Option (Game × Bool × List Nat) :=
  if (g.Pods.length : Int) ≥ g.MaxPods then
    some (g, false, draws)
  else
    match g.Board.RandomPosition (occupiedCells g) draws with
    | none => none
    | some (pos, rest) =>
      some ({ g with Pods := g.Pods ++ [{ Pos := pos, Name := name, Namespace := ns }] }, true, rest)

/-- TogglePause pauses or resumes the game. -/
def Game.TogglePause (g : Game) : Game :=
  match g.State with
  | .StateRunning => { g with State := .StatePaused }
  | .StatePaused => { g with State := .StateRunning }
  | .StateOver => g

/-! ## Sequences of calls on a game -/

/-- Consecutive calls of `Tick` with the eaten pods dropped, as in the loop
`for i := 0; i < 10; i++ { g.Tick() }` of `TestGameOver`. -/
def ticks : Nat → Game → Option Game
  | 0, g => some g
  | n + 1, g =>
    match g.Tick with
    | none => none
    | some (g1, _) => ticks n g1

/-- The calls by which the package's clients change a game: `g.Tick()`,
`g.PlacePod(name, namespace)` on given draws of the random source,
`g.TogglePause()` and `g.Snake.SetDirection(d)`. -/
inductive Call where
  | Tick
  | PlacePod (name ns : String) (draws : List Nat)
  | TogglePause
  | SetDirection (d : Direction)
  deriving DecidableEq, Repr

/-- One call on a game; `none` when the call does not return. -/
def Game.call (g : Game) : Call → Option Game
  | .Tick =>
    match g.Tick with
    | none => none
    | some (g1, _) => some g1
  | .PlacePod name ns draws =>
    match g.PlacePod name ns draws with
    | none => none
    | some (g1, _, _) => some g1
  | .TogglePause => some g.TogglePause
  | .SetDirection d => some { g with Snake := g.Snake.SetDirection d }

/-- A sequence of calls, first to last. -/
def Game.calls (g : Game) : List Call → Option Game
  | [] => some g
  | c :: rest =>
    match g.call c with
    | none => none
    | some g1 => g1.calls rest

/-! ## ui/app.go

Of `GameModel` the fields read or written by `Init` and `Update` are kept;
`theme`, `clusterName` and `namespace` are only read by `View`, and
`k8sClient` is only handed to the commands.  A `tea.Cmd` is a value naming the
command, and `tea.Batch` is the list of its commands. -/

/-- The constant `defaultTickRate`, 150 ms in nanoseconds. -/
def defaultTickRate : Int := 150 * 1000000

/-- The constant `boardWidth`. -/
def boardWidth : Int := 40

/-- The constant `boardHeight`. -/
def boardHeight : Int := 20

/-- The messages `Update` tells apart: `tea.KeyMsg` (with `msg.String()`),
`tea.WindowSizeMsg`, `tickMsg`, `podPlacedMsg`, `podKilledMsg`; `Err` is the
text of the error, `none` for `nil`.  Any other message is `otherMsg`. -/
inductive Msg where
  | KeyMsg (key : String)
  | WindowSizeMsg (Width Height : Int)
  | tickMsg
  | podPlacedMsg (Name Namespace : String) (Err : Option String)
  | podKilledMsg (Name Namespace : String) (Err : Option String)
  | otherMsg
  deriving DecidableEq, Repr

/-- The commands `Init` and `Update` hand to the runtime: `tea.Quit`,
`tickCmd(d)`, `fetchPodCmd(client)` and `killPodCmd(client, name, namespace)`. -/
inductive Cmd where
  | Quit
  | tickCmd (d : Int)
  | fetchPodCmd
  | killPodCmd (name ns : String)
  deriving DecidableEq, Repr

/-- GameModel is the top-level Bubble Tea model for the game. -/
structure GameModel where
  game : Game
  killLog : List String
  width : Int
  height : Int
  tickRate : Int
  fetching : Bool
  deriving DecidableEq, Repr

/-- NewGameModel creates the game model. -/
def NewGameModel : GameModel :=
  { game := New boardWidth boardHeight,
    killLog := [],
    width := 0,
    height := 0,
    tickRate := defaultTickRate,
    fetching := false }

/-- Init starts the tick loop and fetches initial pods. -/
def GameModel.Init (m : GameModel) : List Cmd :=
  [.tickCmd m.tickRate, .fetchPodCmd, .fetchPodCmd, .fetchPodCmd]

/-- The loop `for _, pod := range eaten` of the `tickMsg` case, run over the
pods still to be visited: one kill-log entry and one `killPodCmd` per pod. -/
def killLoop : List Pod → List String → List Cmd → List String × List Cmd
  | [], killLog, cmds => (killLog, cmds)
  | pod :: rest, killLog, cmds =>
    killLoop rest (killLog ++ [pod.Namespace ++ "/" ++ pod.Name])
      (cmds ++ [.killPodCmd pod.Name pod.Namespace])

/-- Update handles messages (keys, ticks, pod events).  The result is the new
model, the batch of commands and the draws of the random source left. -/
def GameModel.Update (m : GameModel) (msg : Msg) (draws : List Nat) :
    Option (GameModel × List Cmd × List Nat) :=
  match msg with
  | .KeyMsg key =>
    if key = "q" ∨ key = "ctrl+c" then
      some (m, [.Quit], draws)
    else if key = "up" ∨ key = "w" then
      some ({ m with game := { m.game with Snake := m.game.Snake.SetDirection .Up } }, [], draws)
    else if key = "down" ∨ key = "s" then
      some ({ m with game := { m.game with Snake := m.game.Snake.SetDirection .Down } }, [], draws)
    else if key = "left" ∨ key = "a" then
      some ({ m with game := { m.game with Snake := m.game.Snake.SetDirection .Left } }, [], draws)
    else if key = "right" ∨ key = "d" then
      some ({ m with game := { m.game with Snake := m.game.Snake.SetDirection .Right } }, [], draws)
    else if key = " " then
      some ({ m with game := m.game.TogglePause }, [], draws)
    else
      some (m, [], draws)
  | .WindowSizeMsg w h => some ({ m with width := w, height := h }, [], draws)
  | .tickMsg =>
    match m.game.Tick with
    | none => none
    | some (g, eaten) =>
      match killLoop eaten m.killLog [] with
      | (killLog, cmds) =>
        if (g.Pods.length : Int) < g.MaxPods ∧ m.fetching = false then
          some ({ m with game := g, killLog := killLog, fetching := true },
            (cmds ++ [.fetchPodCmd]) ++ [.tickCmd m.tickRate], draws)
        else
          some ({ m with game := g, killLog := killLog },
            cmds ++ [.tickCmd m.tickRate], draws)
  | .podPlacedMsg name ns err =>
    if err = none ∧ name ≠ "" then
      match m.game.PlacePod name ns draws with
      | none => none
      | some (g, _, rest) => some ({ m with game := g, fetching := false }, [], rest)
    else
      some ({ m with fetching := false }, [], draws)
  | .podKilledMsg name ns err =>
    match err with
    | some e =>
      some ({ m with killLog := m.killLog ++ ["FAILED: " ++ ns ++ "/" ++ name ++ " -- " ++ e] },
        [], draws)
    | none => some (m, [], draws)
  | .otherMsg => some (m, [], draws)

/-! ## The message loop

The Bubble Tea runtime runs every command it is handed and later delivers the
message the command produces; a `fetchPodCmd` produces exactly one
`podPlacedMsg`.  The loop is followed through the model and the number of
fetch commands issued and not yet completed.  A `tea.Quit` ends the loop; the
model keeps delivering, which only adds states. -/

/-- The number of `fetchPodCmd` in a batch. -/
def countFetch (cmds : List Cmd) : Nat :=
  cmds.count .fetchPodCmd

/-- The number of fetch commands a message completes: one for a
`podPlacedMsg`, none for any other. -/
def completesFetch : Msg → Nat
  | .podPlacedMsg _ _ _ => 1
  | _ => 0

/-- A state of the message loop: the model and the number of fetch commands
issued and not yet completed. -/
structure Sched where
  model : GameModel
  inflight : Nat
  deriving DecidableEq, Repr

/-- The loop after `Init`: the new model, with the fetches of `Init` issued. -/
def Sched.start : Sched :=
  { model := NewGameModel, inflight := countFetch NewGameModel.Init }

/-- Delivery of one message: a `podPlacedMsg` is delivered only while a fetch
is outstanding; the handler runs and the fetches of its batch are issued. -/
def Sched.deliver (s : Sched) (msg : Msg) (draws : List Nat) : Option Sched :=
  if s.inflight < completesFetch msg then none
  else
    match s.model.Update msg draws with
    | none => none
    | some (m, cmds, _) =>
      some { model := m, inflight := s.inflight - completesFetch msg + countFetch cmds }

/-- Delivery of a sequence of messages, each with the draws its handler sees. -/
def Sched.run (s : Sched) : List (Msg × List Nat) → Option Sched
  | [] => some s
  | (msg, draws) :: rest =>
    match s.deliver msg draws with
    | none => none
    | some s1 => s1.run rest

/-- A `killPodCmd`. -/
def Cmd.isKill : Cmd → Bool
  | .killPodCmd _ _ => true
  | _ => false

/-- A `tickCmd`. -/
def Cmd.isTick : Cmd → Bool
  | .tickCmd _ => true
  | _ => false

/-! ## Lemmas on Go integers -/

/-- A wrapped value is an `int64` value. -/
theorem wrapInt_range (n : Int) : -2 ^ 63 ≤ wrapInt n ∧ wrapInt n < 2 ^ 63 := by
  unfold wrapInt
  omega

/-- Wrapping leaves an `int64` value alone. -/
theorem wrapInt_of_range (n : Int) (hlo : -2 ^ 63 ≤ n) (hhi : n < 2 ^ 63) : wrapInt n = n := by
  unfold wrapInt
  omega

/-- Wrapping an already wrapped summand changes nothing. -/
theorem wrapInt_add_wrapInt (n k : Int) : wrapInt (wrapInt n + k) = wrapInt (n + k) := by
  unfold wrapInt
  omega

/-- Repeated `++` on a Go `int` adds the number of executions in wrapping
arithmetic. -/
theorem plusPlus_eq_wrapInt (m : Nat) (n : Int) (hn : wrapInt n = n) :
    plusPlus m n = wrapInt (n + m) := by
  induction m generalizing n with
  | zero => simp [plusPlus, hn]
  | succ k ih =>
    have hstep : plusPlus (k + 1) n = plusPlus k (wrapInt (n + 1)) := by
      unfold plusPlus
      rw [Function.iterate_succ_apply]
    have hw : wrapInt (wrapInt (n + 1)) = wrapInt (n + 1) :=
      wrapInt_of_range _ (wrapInt_range _).1 (wrapInt_range _).2
    rw [hstep, ih _ hw, wrapInt_add_wrapInt]
    congr 1
    push_cast
    ring

/-- Repeated `++` adds exactly the number of executions as long as the sum
stays an `int64` value. -/
theorem plusPlus_exact (m : Nat) (n : Int) (hlo : -2 ^ 63 ≤ n) (hhi : n + m < 2 ^ 63) :
    plusPlus m n = n + m := by
  rw [plusPlus_eq_wrapInt m n (wrapInt_of_range n hlo (by omega))]
  exact wrapInt_of_range _ (by omega) hhi

/-! ## Lemmas on the board -/

/-- The values of `rand.Intn n` lie in `[0, n)`. -/
theorem Intn_range (n : Int) (r : Nat) (v : Int) (h : Intn n r = some v) : 0 ≤ v ∧ v < n := by
  unfold Intn at h
  split at h
  · cases h
  · rename_i hn
    have hpos : 0 < n := by omega
    cases h
    exact ⟨Int.emod_nonneg _ (by omega), Int.emod_lt_of_pos _ hpos⟩

/-- Every value of `[0, n)` is a value of `rand.Intn n`. -/
theorem Intn_onto (n v : Int) (h0 : 0 ≤ v) (hn : v < n) : Intn n v.toNat = some v := by
  unfold Intn
  have hv : ((v.toNat : Nat) : Int) = v := Int.toNat_of_nonneg h0
  rw [if_neg (by omega), hv, Int.emod_eq_of_lt h0 hn]

/-- The map built by inserting the positions of `l` into `m` holds `q` exactly
when `q` is in `l` or was in `m`. -/
theorem excludeSet_foldl (l : List Position) (m : Position → Bool) (q : Position) :
    l.foldl (fun m p => fun q => if q = p then true else m q) m q = true ↔ q ∈ l ∨ m q = true := by
  induction l generalizing m with
  | nil => simp
  | cons a t ih =>
    rw [List.foldl_cons, ih]
    by_cases hq : q = a
    · simp [hq]
    · simp [hq]

/-- Looking a position up in `excludeSet` is membership in the excluded list. -/
theorem excludeSet_iff (excluded : List Position) (q : Position) :
    excludeSet excluded q = true ↔ q ∈ excluded := by
  unfold excludeSet
  rw [excludeSet_foldl]
  simp

/-- What the sampling loop returns is not held by the exclude set and lies
inside the board. -/
theorem sampleLoop_sound (b : Board) (ex : Position → Bool) :
    ∀ (n : Nat) (draws : List Nat), draws.length ≤ n →
      ∀ (p : Position) (rest : List Nat), sampleLoop b ex draws = some (p, rest) →
        ex p = false ∧ (0 ≤ p.X ∧ p.X < b.Width) ∧ (0 ≤ p.Y ∧ p.Y < b.Height) := by
  intro n
  induction n with
  | zero =>
    intro draws hlen p rest h
    match draws, hlen with
    | [], _ => simp [sampleLoop] at h
  | succ k ih =>
    intro draws hlen p rest h
    match draws, hlen, h with
    | [], _, h => simp [sampleLoop] at h
    | [_], _, h => simp [sampleLoop] at h
    | rx :: ry :: tl, hlen, h =>
      unfold sampleLoop at h
      cases hx : Intn b.Width rx with
      | none => simp [hx] at h
      | some x =>
        cases hy : Intn b.Height ry with
        | none => simp [hx, hy] at h
        | some y =>
          simp only [hx, hy] at h
          by_cases hex : ex { X := x, Y := y } = true
          · rw [if_pos hex] at h
            exact ih tl (by simp at hlen; omega) p rest h
          · rw [if_neg hex] at h
            simp only [Option.some.injEq, Prod.mk.injEq] at h
            obtain ⟨hp, _⟩ := h
            subst hp
            exact ⟨by simpa using hex, Intn_range _ _ _ hx, Intn_range _ _ _ hy⟩

/-- The sampling loop returns as soon as a round draws a free cell: after any
even number of earlier draws, a round that lands outside the exclude set makes
the loop return (there or earlier). -/
theorem sampleLoop_returns (b : Board) (ex : Position → Bool) (hw : 0 < b.Width)
    (hh : 0 < b.Height) (rx ry : Nat) (rest : List Nat)
    (hfree : ex { X := (rx : Int) % b.Width, Y := (ry : Int) % b.Height } = false) :
    ∀ (k : Nat) (pre : List Nat), pre.length = 2 * k →
      ∃ p rest1, sampleLoop b ex (pre ++ rx :: ry :: rest) = some (p, rest1) := by
  have hIw : ∀ r, Intn b.Width r = some ((r : Int) % b.Width) := by
    intro r; unfold Intn; rw [if_neg (by omega)]
  have hIh : ∀ r, Intn b.Height r = some ((r : Int) % b.Height) := by
    intro r; unfold Intn; rw [if_neg (by omega)]
  intro k
  induction k with
  | zero =>
    intro pre hpre
    have : pre = [] := List.length_eq_zero.mp (by omega)
    subst this
    refine ⟨{ X := (rx : Int) % b.Width, Y := (ry : Int) % b.Height }, rest, ?_⟩
    simp only [List.nil_append]
    unfold sampleLoop
    simp [hIw, hIh, hfree]
  | succ j ih =>
    intro pre hpre
    match pre, hpre with
    | a :: c :: tl, hpre =>
      simp only [List.cons_append]
      unfold sampleLoop
      simp only [hIw, hIh]
      by_cases hex : ex { X := (a : Int) % b.Width, Y := (c : Int) % b.Height } = true
      · rw [if_pos hex]
        exact ih tl (by simp at hpre; omega)
      · rw [if_neg hex]
        exact ⟨_, _, rfl⟩
    | [_], hpre => simp at hpre; omega
    | [], hpre => simp at hpre

/-- What `RandomPosition` returns is not excluded and lies inside the board. -/
theorem sampled_free_in_bounds (b : Board) (excluded : List Position)
    (draws : List Nat) (p : Position) (rest : List Nat)
    (hret : b.RandomPosition excluded draws = some (p, rest)) :
    p ∉ excluded ∧ b.IsOutOfBounds p = false := by
  obtain ⟨hex, hx, hy⟩ := sampleLoop_sound b (excludeSet excluded) draws.length draws
    (le_refl _) p rest hret
  constructor
  · intro hmem
    rw [(excludeSet_iff excluded p).mpr hmem] at hex
    cases hex
  · simp [Board.IsOutOfBounds, hx.1, hx.2, hy.1, hy.2]

/-- A free cell inside the board can be drawn: `RandomPosition` returns it on
the draws that name it. -/
theorem RandomPosition_can_return (b : Board) (excluded : List Position) (p : Position)
    (rest : List Nat) (hin : b.IsOutOfBounds p = false) (hfree : p ∉ excluded) :
    b.RandomPosition excluded (p.X.toNat :: p.Y.toNat :: rest) = some (p, rest) := by
  simp only [Board.IsOutOfBounds, Bool.or_eq_false_iff, decide_eq_false_iff_not, not_lt,
    not_le, ge_iff_le] at hin
  obtain ⟨⟨⟨hx0, hxw⟩, hy0⟩, hyh⟩ := hin
  have hex : excludeSet excluded p = false := by
    rw [← Bool.not_eq_true, excludeSet_iff]; exact hfree
  unfold Board.RandomPosition sampleLoop
  rw [Intn_onto _ _ hx0 hxw, Intn_onto _ _ hy0 hyh]
  simp [hex]

/-! ## Lemmas on the snake -/

/-- The loop of `CollidesWithSelf` answers whether `head` is among the
segments it scans. -/
theorem collideLoop_iff (head : Position) (segs : List Position) :
    collideLoop head segs = true ↔ head ∈ segs := by
  induction segs with
  | nil => simp [collideLoop]
  | cons a t ih =>
    unfold collideLoop
    by_cases ha : a = head
    · simp [ha]
    · have hne : ¬ head = a := fun h => ha h.symm
      simp [ha, hne, ih]

/-- On a non-empty body `Move` returns, and the body it leaves is the next
cell followed by the old body, whole or without its last element. -/
theorem Move_eq (s : Snake) (hd : Position) (tl : List Position) (hb : s.Body = hd :: tl) :
    s.Move = some
      { Body := nextCell s.Direction hd ::
          (if s.Growing = true then s.Body else s.Body.dropLast),
        Direction := s.Direction,
        Growing := false } := by
  unfold Snake.Move Snake.Head
  simp only [hb, List.head?_cons]
  by_cases hg : s.Growing = true
  · simp [hg]
  · simp only [hg, Bool.false_eq_true, if_false]
    rw [← List.dropLast_eq_take, List.dropLast_cons_of_ne_nil (List.cons_ne_nil _ _)]

/-- On a non-empty body `Move` returns a snake that has a head. -/
theorem Move_returns (s : Snake) (h : s.Body ≠ []) :
    ∃ moved head, s.Move = some moved ∧ moved.Head = some head := by
  obtain ⟨hd, tl, hb⟩ := List.exists_cons_of_ne_nil h
  exact ⟨_, nextCell s.Direction hd, Move_eq s hd tl hb, rfl⟩

/-- Telling the snake to grow once or several times sets the flag and
nothing else. -/
theorem Grow_iterate (n : Nat) (hn : 1 ≤ n) (s : Snake) :
    Nat.iterate Snake.Grow n s = { s with Growing := true } := by
  induction n generalizing s with
  | zero => omega
  | succ k ih =>
    rw [Function.iterate_succ_apply]
    by_cases hk : k = 0
    · subst hk; rfl
    · rw [ih (by omega)]; rfl

/-! ## Lemmas on the game -/

/-- The eating loop in closed form: the pods on `head` go to `eaten`, the
others to `remaining`, both in order; both counters rise by the number of pods
eaten (one `++` each) and the growth flag is raised when there is one. -/
theorem eatLoop_eq (head : Position) (pods : List Pod) :
    ∀ (g : Game) (eaten remaining : List Pod),
      eatLoop head pods g eaten remaining =
        ({ g with
            Snake := { g.Snake with
              Growing := g.Snake.Growing || !(pods.filter (fun pod => decide (pod.Pos = head))).isEmpty },
            Score := plusPlus (pods.filter (fun pod => decide (pod.Pos = head))).length g.Score,
            KillCount :=
              plusPlus (pods.filter (fun pod => decide (pod.Pos = head))).length g.KillCount },
          eaten ++ pods.filter (fun pod => decide (pod.Pos = head)),
          remaining ++ pods.filter (fun pod => decide (pod.Pos ≠ head))) := by
  induction pods with
  | nil => intro g eaten remaining; simp [eatLoop, plusPlus]
  | cons a t ih =>
    intro g eaten remaining
    unfold eatLoop
    by_cases ha : a.Pos = head
    · rw [if_pos ha, ih]
      simp [ha, Snake.Grow, List.filter_cons, plusPlus, Function.iterate_succ_apply]
    · rw [if_neg ha, ih]
      simp [ha, List.filter_cons]

/-- The slice `occupied` of `PlacePod` is the body followed by the pod
positions. -/
theorem occupied_foldl (pods : List Pod) (init : List Position) :
    pods.foldl (fun occupied p => occupied ++ [p.Pos]) init = init ++ pods.map (fun p => p.Pos) := by
  induction pods generalizing init with
  | nil => simp
  | cons a t ih => rw [List.foldl_cons, ih]; simp

/-- A position is occupied exactly when it is a cell of the snake's body or
the position of a pod of the registry. -/
theorem mem_occupiedCells (g : Game) (p : Position) :
    p ∈ occupiedCells g ↔ p ∈ g.Snake.Body ∨ ∃ q ∈ g.Pods, q.Pos = p := by
  unfold occupiedCells
  rw [occupied_foldl]
  simp

/-- Below capacity, `PlacePod` returns on every run on which some round draws a
cell that is neither on the snake nor on a pod. -/
theorem PlacePod_returns (g : Game) (name ns : String)
    (hlen : (g.Pods.length : Int) < g.MaxPods) (hw : 0 < g.Board.Width)
    (hh : 0 < g.Board.Height) (k : Nat) (pre : List Nat) (hpre : pre.length = 2 * k)
    (rx ry : Nat) (rest : List Nat)
    (hfree : ({ X := (rx : Int) % g.Board.Width, Y := (ry : Int) % g.Board.Height } : Position)
      ∉ occupiedCells g) :
    ∃ g1 rest1, g.PlacePod name ns (pre ++ rx :: ry :: rest) = some (g1, true, rest1) := by
  have hex : excludeSet (occupiedCells g)
      { X := (rx : Int) % g.Board.Width, Y := (ry : Int) % g.Board.Height } = false := by
    rw [← Bool.not_eq_true, excludeSet_iff]; exact hfree
  obtain ⟨p, rest1, hp⟩ :=
    sampleLoop_returns g.Board (excludeSet (occupiedCells g)) hw hh rx ry rest hex k pre hpre
  refine ⟨{ g with Pods := g.Pods ++ [{ Pos := p, Name := name, Namespace := ns }] }, rest1, ?_⟩
  unfold Game.PlacePod Board.RandomPosition
  rw [if_neg (by omega), hp]

/-- A running game whose moved snake has its head outside the board is over
after `Tick`, with nothing eaten. -/
theorem Tick_out_of_bounds (g : Game) (moved : Snake) (head : Position)
    (hrun : g.State = .StateRunning)
    (hmove : g.Snake.Move = some moved) (hhead : moved.Head = some head)
    (hout : g.Board.IsOutOfBounds head = true) :
    g.Tick = some ({ g with Snake := moved, State := .StateOver }, []) := by
  unfold Game.Tick
  rw [if_neg (by simp [hrun])]
  simp [hmove, hhead, hout]

/-- A running game whose moved snake has its head inside the board but on
another segment is over after `Tick`, with nothing eaten. -/
theorem Tick_self_collision (g : Game) (moved : Snake) (head : Position)
    (hrun : g.State = .StateRunning)
    (hmove : g.Snake.Move = some moved) (hhead : moved.Head = some head)
    (hin : g.Board.IsOutOfBounds head = false) (hself : head ∈ moved.Body.tail) :
    g.Tick = some ({ g with Snake := moved, State := .StateOver }, []) := by
  have hcol : collideLoop head moved.Body.tail = true := (collideLoop_iff _ _).mpr hself
  unfold Game.Tick
  rw [if_neg (by simp [hrun])]
  simp [hmove, hhead, hin, Snake.CollidesWithSelf, hcol]

/-- A running game whose moved snake has its head inside the board and on no
other segment goes through the eating loop. -/
theorem Tick_clear (g : Game) (moved : Snake) (head : Position)
    (hrun : g.State = .StateRunning)
    (hmove : g.Snake.Move = some moved) (hhead : moved.Head = some head)
    (hin : g.Board.IsOutOfBounds head = false) (hself : head ∉ moved.Body.tail) :
    g.Tick = some
      ({ g with
          Snake := { moved with
            Growing := moved.Growing ||
              !(g.Pods.filter (fun pod => decide (pod.Pos = head))).isEmpty },
          Pods := g.Pods.filter (fun pod => decide (pod.Pos ≠ head)),
          Score := plusPlus (g.Pods.filter (fun pod => decide (pod.Pos = head))).length g.Score,
          KillCount :=
            plusPlus (g.Pods.filter (fun pod => decide (pod.Pos = head))).length g.KillCount },
        g.Pods.filter (fun pod => decide (pod.Pos = head))) := by
  have hcol : collideLoop head (moved.Body.drop 1) = false := by
    rw [← Bool.not_eq_true, collideLoop_iff, List.drop_one]; exact hself
  unfold Game.Tick
  rw [if_neg (by simp [hrun])]
  simp only [hmove, hhead, hin, Snake.CollidesWithSelf, hcol, eatLoop_eq, List.nil_append]
  rfl

/-- `Tick` returns on every game that is not Running or whose snake has a
body. -/
theorem Tick_returns (g : Game) (h : g.State ≠ .StateRunning ∨ g.Snake.Body ≠ []) :
    ∃ after eaten, g.Tick = some (after, eaten) := by
  by_cases hrun : g.State = .StateRunning
  · have hbody : g.Snake.Body ≠ [] := by
      rcases h with h | h
      · exact absurd hrun h
      · exact h
    obtain ⟨moved, head, hmove, hhead⟩ := Move_returns g.Snake hbody
    by_cases hout : g.Board.IsOutOfBounds head = true
    · exact ⟨_, _, Tick_out_of_bounds g moved head hrun hmove hhead hout⟩
    · have hin : g.Board.IsOutOfBounds head = false := by simpa using hout
      by_cases hself : head ∈ moved.Body.tail
      · exact ⟨_, _, Tick_self_collision g moved head hrun hmove hhead hin hself⟩
      · exact ⟨_, _, Tick_clear g moved head hrun hmove hhead hin hself⟩
  · refine ⟨g, [], ?_⟩
    unfold Game.Tick
    rw [if_pos hrun]

/-! ## The snake: SetDirection, Move, Grow -/

/-- C6: for every snake with current direction `c` and every direction `d`,
after `SetDirection d` the direction is `c` when `d` is the opposite of `c`
(Up/Down, Left/Right) and `d` otherwise; the body and the growth flag are
unchanged in both cases. -/
theorem SetDirection_keeps_or_turns (s : Snake) (d : Direction) :
    ((d = .Up ∧ s.Direction = .Down ∨ d = .Down ∧ s.Direction = .Up ∨
        d = .Left ∧ s.Direction = .Right ∨ d = .Right ∧ s.Direction = .Left) →
      (s.SetDirection d).Direction = s.Direction) ∧
    (¬ (d = .Up ∧ s.Direction = .Down ∨ d = .Down ∧ s.Direction = .Up ∨
        d = .Left ∧ s.Direction = .Right ∨ d = .Right ∧ s.Direction = .Left) →
      (s.SetDirection d).Direction = d) ∧
    (s.SetDirection d).Body = s.Body ∧
    (s.SetDirection d).Growing = s.Growing := by
  obtain ⟨body, c, growing⟩ := s
  cases d <;> cases c <;> simp [Snake.SetDirection, opposites]

/-- C7, as stated, fails at the limits of Go's `int`.  A snake whose head is at
`X = MaxInt64` and that heads Right is moved to `X = MinInt64`, which is not
the cell one further right. -/
theorem Move_wraps_at_MaxInt64 :
    ({ Body := [{ X := 9223372036854775807, Y := 0 }, { X := 9223372036854775806, Y := 0 },
                { X := 9223372036854775805, Y := 0 }],
       Direction := .Right, Growing := false } : Snake).Move =
      some { Body := [{ X := -9223372036854775808, Y := 0 }, { X := 9223372036854775807, Y := 0 },
                      { X := 9223372036854775806, Y := 0 }],
             Direction := .Right, Growing := false } ∧
    ({ X := -9223372036854775808, Y := 0 } : Position) ≠
      { X := 9223372036854775807 + 1, Y := 0 } := by
  refine ⟨by decide, by decide⟩

/-- C7, amended: for every snake with a non-empty body, `Move` returns; with
`next` the head shifted by one cell in the current direction in Go's wrapping
`int` arithmetic (Up: y-1, Down: y+1, Left: x-1, Right: x+1, each reduced
modulo 2^64 into the `int64` range), hence by exactly one cell whenever the
changed coordinate stays an `int64` value, the new body is `next` followed by
the whole old body when the growth flag was set and `next` followed by the old
body without its last element when it was not; the new head is `next`, the
growth flag is false afterwards and the direction is unchanged. -/
theorem Move_advances (s : Snake) (h : s.Body ≠ []) :
    ∃ next moved, s.Move = some moved ∧
      (s.Direction = .Up →
        next = { X := (s.Body.head h).X, Y := wrapInt ((s.Body.head h).Y - 1) }) ∧
      (s.Direction = .Down →
        next = { X := (s.Body.head h).X, Y := wrapInt ((s.Body.head h).Y + 1) }) ∧
      (s.Direction = .Left →
        next = { X := wrapInt ((s.Body.head h).X - 1), Y := (s.Body.head h).Y }) ∧
      (s.Direction = .Right →
        next = { X := wrapInt ((s.Body.head h).X + 1), Y := (s.Body.head h).Y }) ∧
      (s.Direction = .Up → -2 ^ 63 ≤ (s.Body.head h).Y - 1 → (s.Body.head h).Y - 1 < 2 ^ 63 →
        next = { X := (s.Body.head h).X, Y := (s.Body.head h).Y - 1 }) ∧
      (s.Direction = .Down → -2 ^ 63 ≤ (s.Body.head h).Y + 1 → (s.Body.head h).Y + 1 < 2 ^ 63 →
        next = { X := (s.Body.head h).X, Y := (s.Body.head h).Y + 1 }) ∧
      (s.Direction = .Left → -2 ^ 63 ≤ (s.Body.head h).X - 1 → (s.Body.head h).X - 1 < 2 ^ 63 →
        next = { X := (s.Body.head h).X - 1, Y := (s.Body.head h).Y }) ∧
      (s.Direction = .Right → -2 ^ 63 ≤ (s.Body.head h).X + 1 → (s.Body.head h).X + 1 < 2 ^ 63 →
        next = { X := (s.Body.head h).X + 1, Y := (s.Body.head h).Y }) ∧
      (s.Growing = true → moved.Body = next :: s.Body) ∧
      (s.Growing = false → moved.Body = next :: s.Body.dropLast) ∧
      moved.Head = some next ∧
      moved.Growing = false ∧
      moved.Direction = s.Direction := by
  obtain ⟨body, c, growing⟩ := s
  match body, h with
  | hd :: tl, _ =>
    refine ⟨nextCell c hd, _, Move_eq _ hd tl rfl, ?_, ?_, ?_, ?_, ?_, ?_, ?_, ?_, ?_, ?_, ?_, ?_,
      ?_⟩
    · intro hc; simp only at hc; subst hc; rfl
    · intro hc; simp only at hc; subst hc; rfl
    · intro hc; simp only at hc; subst hc; rfl
    · intro hc; simp only at hc; subst hc; rfl
    · intro hc hlo hhi; simp only at hc; subst hc
      simp only [List.head_cons] at hlo hhi ⊢
      rw [← wrapInt_of_range _ hlo hhi]; rfl
    · intro hc hlo hhi; simp only at hc; subst hc
      simp only [List.head_cons] at hlo hhi ⊢
      rw [← wrapInt_of_range _ hlo hhi]; rfl
    · intro hc hlo hhi; simp only at hc; subst hc
      simp only [List.head_cons] at hlo hhi ⊢
      rw [← wrapInt_of_range _ hlo hhi]; rfl
    · intro hc hlo hhi; simp only at hc; subst hc
      simp only [List.head_cons] at hlo hhi ⊢
      rw [← wrapInt_of_range _ hlo hhi]; rfl
    · intro hg; simp only at hg; simp [hg]
    · intro hg; simp only at hg; simp [hg]
    · simp [Snake.Head]
    · rfl
    · rfl

/-- C7, amended, on the test's input: `NewSnake` at (5,5) moved once has its
head at (6,5) and length 3. -/
theorem Move_advances_witness :
    (NewSnake { X := 5, Y := 5 }).Body ≠ [] ∧
    ∃ moved, (NewSnake { X := 5, Y := 5 }).Move = some moved ∧
      moved.Head = some { X := 6, Y := 5 } ∧ moved.Body.length = 3 := by
  refine ⟨by simp [NewSnake], ?_⟩
  obtain ⟨next, moved, hm, _, _, _, _, _, _, _, hr, _, hb, hh, _, _⟩ :=
    Move_advances (NewSnake { X := 5, Y := 5 }) (by simp [NewSnake])
  have hnext : next = { X := 6, Y := 5 } := by
    rw [hr rfl (by simp [NewSnake]) (by simp [NewSnake])]; simp [NewSnake]
  refine ⟨moved, hm, by rw [hh, hnext], ?_⟩
  rw [hb rfl]
  simp [NewSnake]

/-- C8: for every snake with a non-empty body and no pending growth, one
`Move` leaves the body length unchanged; for every `n >= 1`, `Grow` called `n`
times and then one `Move` lengthen the body by exactly 1, and a further `Move`
with no `Grow` in between leaves the length unchanged again. -/
theorem Grow_then_Move_length (s : Snake) (h : s.Body ≠ []) (hg : s.Growing = false) :
    (∃ moved, s.Move = some moved ∧ moved.Body.length = s.Body.length) ∧
    ∀ n : Nat, 1 ≤ n →
      ∃ grown again, (Nat.iterate Snake.Grow n s).Move = some grown ∧
        grown.Body.length = s.Body.length + 1 ∧
        grown.Move = some again ∧
        again.Body.length = grown.Body.length := by
  obtain ⟨body, c, growing⟩ := s
  simp only at hg
  subst hg
  match body, h with
  | hd :: tl, _ =>
    constructor
    · refine ⟨_, Move_eq _ hd tl rfl, ?_⟩
      simp
    · intro n hn
      rw [Grow_iterate n hn]
      refine ⟨_, _, Move_eq _ hd tl rfl, by simp, Move_eq _ _ _ rfl, ?_⟩
      simp

/-- C8, on the test's input: `NewSnake` at (5,5) keeps length 3 under one
`Move`, and has length 4 after two `Grow` calls and one `Move`. -/
theorem Grow_then_Move_length_witness :
    (NewSnake { X := 5, Y := 5 }).Body ≠ [] ∧ (NewSnake { X := 5, Y := 5 }).Growing = false ∧
    (∃ moved, (NewSnake { X := 5, Y := 5 }).Move = some moved ∧ moved.Body.length = 3) ∧
    ∃ grown, (NewSnake { X := 5, Y := 5 }).Grow.Grow.Move = some grown ∧
      grown.Body.length = 4 := by
  have hw := Grow_then_Move_length (NewSnake { X := 5, Y := 5 }) (by simp [NewSnake]) rfl
  refine ⟨by simp [NewSnake], rfl, ?_, ?_⟩
  · obtain ⟨moved, hm, hl⟩ := hw.1
    exact ⟨moved, hm, by rw [hl]; simp [NewSnake]⟩
  · obtain ⟨grown, _, hm, hl, _, _⟩ := hw.2 2 (by decide)
    exact ⟨grown, hm, by rw [hl]; simp [NewSnake]⟩

/-! ## The board: IsOutOfBounds, RandomPosition -/

/-- C9: for every board of width `w` and height `h` and every position `p`,
`IsOutOfBounds p` is true if and only if `p.X < 0` or `p.X >= w` or `p.Y < 0`
or `p.Y >= h`; equivalently `p` is in bounds iff `0 <= p.X < w` and
`0 <= p.Y < h`. -/
theorem IsOutOfBounds_iff (w h : Int) (p : Position) :
    ((NewBoard w h).IsOutOfBounds p = true ↔ p.X < 0 ∨ p.X ≥ w ∨ p.Y < 0 ∨ p.Y ≥ h) ∧
    ((NewBoard w h).IsOutOfBounds p = false ↔ (0 ≤ p.X ∧ p.X < w) ∧ (0 ≤ p.Y ∧ p.Y < h)) := by
  constructor
  · simp [Board.IsOutOfBounds, NewBoard, or_assoc]
  · simp [Board.IsOutOfBounds, NewBoard, and_assoc]

/-- C10: for every board, every list of excluded positions and every sequence
of draws of the random source, whenever `RandomPosition` returns a position
`p`, `p` is not an element of the excluded list and `p` is inside the board.
(On a board whose width or height is not positive `rand.Intn` panics and
nothing is returned, so positivity need not be assumed.) -/
theorem RandomPosition_avoids_excluded (b : Board) (excluded : List Position)
    (draws : List Nat) (p : Position) (rest : List Nat)
    (hret : b.RandomPosition excluded draws = some (p, rest)) :
    p ∉ excluded ∧ b.IsOutOfBounds p = false :=
  sampled_free_in_bounds b excluded draws p rest hret

/-- C10, on a 4x4 board with (1,2) excluded: the first round draws (1,2) and
is rejected, the second draws (3,0), which is returned. -/
theorem RandomPosition_avoids_excluded_witness :
    (NewBoard 4 4).RandomPosition [{ X := 1, Y := 2 }] [5, 6, 7, 8, 9] =
        some ({ X := 3, Y := 0 }, [9]) ∧
    ({ X := 3, Y := 0 } : Position) ∉ [({ X := 1, Y := 2 } : Position)] ∧
    (NewBoard 4 4).IsOutOfBounds { X := 3, Y := 0 } = false :=
  have hret : (NewBoard 4 4).RandomPosition [{ X := 1, Y := 2 }] [5, 6, 7, 8, 9] =
      some ({ X := 3, Y := 0 }, [9]) := by decide
  ⟨hret, RandomPosition_avoids_excluded (NewBoard 4 4) [{ X := 1, Y := 2 }] [5, 6, 7, 8, 9]
    { X := 3, Y := 0 } [9] hret⟩

/-! ## The game: Tick -/

/-- C1, as stated, fails at the limits of Go's `int`.  On the 20x20 board with
one pod directly ahead of the head and `Score` at `MaxInt64`, one `Tick`
returns one pod and leaves `Score` at `MinInt64`: it has not grown by 1. -/
theorem Tick_score_wraps_at_MaxInt64 :
    (({ New 20 20 with
        Pods := [{ Pos := { X := 6, Y := 10 }, Name := "test-pod", Namespace := "default" }],
        Score := 9223372036854775807 } : Game).Tick).map
      (fun r => (r.2.length, r.1.Score, r.1.KillCount)) =
      some (1, -9223372036854775808, 1) ∧
    (-9223372036854775808 : Int) ≠ 9223372036854775807 + 1 := by
  refine ⟨by decide, by decide⟩

/-- C1, amended: for every game in state Running whose snake, after one `Move`,
has its new head inside the board and not on another body segment, `Tick`
returns exactly the pods whose position equals the new head, in their registry
order; afterwards `Pods` holds exactly the other pods in their order, `Score`
and `KillCount` have each gone through one `++` per pod returned, so that a
counter holding a Go `int` has grown by the number of pods returned in wrapping
arithmetic, and by exactly that number whenever the sum stays an `int64`
value; the growth flag is set if at least one pod was returned, and `State` is
still Running. -/
theorem Tick_eats_pods_on_head (g : Game) (moved : Snake) (head : Position)
    (hrun : g.State = .StateRunning)
    (hmove : g.Snake.Move = some moved) (hhead : moved.Head = some head)
    (hin : g.Board.IsOutOfBounds head = false) (hself : head ∉ moved.Body.tail) :
    ∃ after, g.Tick = some (after, g.Pods.filter (fun pod => decide (pod.Pos = head))) ∧
      after.Pods = g.Pods.filter (fun pod => decide (pod.Pos ≠ head)) ∧
      after.Score = plusPlus (g.Pods.filter (fun pod => decide (pod.Pos = head))).length g.Score ∧
      after.KillCount =
        plusPlus (g.Pods.filter (fun pod => decide (pod.Pos = head))).length g.KillCount ∧
      (-2 ^ 63 ≤ g.Score → g.Score < 2 ^ 63 →
        after.Score =
          wrapInt (g.Score + (g.Pods.filter (fun pod => decide (pod.Pos = head))).length)) ∧
      (-2 ^ 63 ≤ g.KillCount → g.KillCount < 2 ^ 63 →
        after.KillCount =
          wrapInt (g.KillCount + (g.Pods.filter (fun pod => decide (pod.Pos = head))).length)) ∧
      (-2 ^ 63 ≤ g.Score →
        g.Score + (g.Pods.filter (fun pod => decide (pod.Pos = head))).length < 2 ^ 63 →
        after.Score = g.Score + (g.Pods.filter (fun pod => decide (pod.Pos = head))).length) ∧
      (-2 ^ 63 ≤ g.KillCount →
        g.KillCount + (g.Pods.filter (fun pod => decide (pod.Pos = head))).length < 2 ^ 63 →
        after.KillCount =
          g.KillCount + (g.Pods.filter (fun pod => decide (pod.Pos = head))).length) ∧
      (g.Pods.filter (fun pod => decide (pod.Pos = head)) ≠ [] → after.Snake.Growing = true) ∧
      after.State = .StateRunning := by
  refine ⟨_, Tick_clear g moved head hrun hmove hhead hin hself, rfl, rfl, rfl, ?_, ?_, ?_, ?_, ?_,
    hrun⟩
  · intro hlo hhi
    exact plusPlus_eq_wrapInt _ _ (wrapInt_of_range _ hlo hhi)
  · intro hlo hhi
    exact plusPlus_eq_wrapInt _ _ (wrapInt_of_range _ hlo hhi)
  · intro hlo hhi
    exact plusPlus_exact _ _ hlo hhi
  · intro hlo hhi
    exact plusPlus_exact _ _ hlo hhi
  · intro hne
    cases hf : g.Pods.filter (fun pod => decide (pod.Pos = head)) with
    | nil => exact absurd hf hne
    | cons a t => simp [hf]

/-- C1, amended, on the spec's scenario: on the 20x20 board with the head at (5,10)
facing Right and one pod directly ahead at (6,10), the game is Running, the
moved head (6,10) is inside the board and on no other segment, and one `Tick`
returns a list of length 1, empties the registry and raises the score by 1. -/
theorem Tick_eats_pods_on_head_witness :
    ({ New 20 20 with
        Pods := [{ Pos := { X := 6, Y := 10 }, Name := "test-pod", Namespace := "default" }] }
      : Game).State = .StateRunning ∧
    (New 20 20).Snake.Move =
      some { Body := [{ X := 6, Y := 10 }, { X := 5, Y := 10 }, { X := 4, Y := 10 }],
             Direction := .Right, Growing := false } ∧
    (New 20 20).Board.IsOutOfBounds { X := 6, Y := 10 } = false ∧
    ({ X := 6, Y := 10 } : Position) ∉ [({ X := 5, Y := 10 } : Position), { X := 4, Y := 10 }] ∧
    ∃ after eaten,
      ({ New 20 20 with
          Pods := [{ Pos := { X := 6, Y := 10 }, Name := "test-pod", Namespace := "default" }] }
        : Game).Tick = some (after, eaten) ∧
      eaten.length = 1 ∧ after.Pods = [] ∧ after.Score = 1 ∧ after.KillCount = 1 ∧
      after.Snake.Growing = true ∧ after.State = .StateRunning := by
  obtain ⟨after, ht, hp, hs, hk, _, _, _, _, hgr, hst⟩ := Tick_eats_pods_on_head
    ({ New 20 20 with
        Pods := [{ Pos := { X := 6, Y := 10 }, Name := "test-pod", Namespace := "default" }] }
      : Game)
    { Body := [{ X := 6, Y := 10 }, { X := 5, Y := 10 }, { X := 4, Y := 10 }],
      Direction := .Right, Growing := false }
    { X := 6, Y := 10 } rfl (by decide) rfl (by decide) (by decide)
  refine ⟨rfl, by decide, by decide, by decide, after, _, ht, by decide, ?_, ?_, ?_,
    hgr (by decide), hst⟩
  · rw [hp]; decide
  · rw [hs]; decide
  · rw [hk]; decide

/-- C2: for every game in state Running (the snake's body being non-empty, so
that `Move` yields a new head), `Tick` returns, and it leaves the game in state
Over if and only if the new head is out of bounds of the board or equals some
other body segment; in that case `Tick` returns no pods and leaves `Pods`,
`Score` and `KillCount` unchanged, and otherwise the state remains Running. -/
theorem Tick_over_iff_collision (g : Game) (hrun : g.State = .StateRunning)
    (hbody : g.Snake.Body ≠ []) :
    ∃ moved head after eaten,
      g.Snake.Move = some moved ∧ moved.Head = some head ∧ g.Tick = some (after, eaten) ∧
      (after.State = .StateOver ↔
        (g.Board.IsOutOfBounds head = true ∨ head ∈ moved.Body.tail)) ∧
      (after.State = .StateOver →
        eaten = [] ∧ after.Pods = g.Pods ∧ after.Score = g.Score ∧
          after.KillCount = g.KillCount) ∧
      (after.State ≠ .StateOver → after.State = .StateRunning) := by
  obtain ⟨moved, head, hmove, hhead⟩ := Move_returns g.Snake hbody
  refine ⟨moved, head, ?_⟩
  by_cases hout : g.Board.IsOutOfBounds head = true
  · refine ⟨_, _, hmove, hhead, Tick_out_of_bounds g moved head hrun hmove hhead hout, ?_, ?_, ?_⟩
    · simp [hout]
    · intro _; exact ⟨rfl, rfl, rfl, rfl⟩
    · intro hne; exact absurd rfl hne
  · have hin : g.Board.IsOutOfBounds head = false := by simpa using hout
    by_cases hself : head ∈ moved.Body.tail
    · refine ⟨_, _, hmove, hhead,
        Tick_self_collision g moved head hrun hmove hhead hin hself, ?_, ?_, ?_⟩
      · simp [hself]
      · intro _; exact ⟨rfl, rfl, rfl, rfl⟩
      · intro hne; exact absurd rfl hne
    · refine ⟨_, _, hmove, hhead, Tick_clear g moved head hrun hmove hhead hin hself, ?_, ?_, ?_⟩
      · simp [hrun, hin, hself]
      · intro hover; simp only [hrun] at hover; cases hover
      · intro _; exact hrun

/-- C2, on a 4x4 board with the head on the last column: the game is Running,
the body is non-empty, and one `Tick` ends the game with nothing eaten. -/
theorem Tick_over_iff_collision_witness :
    ({ New 4 4 with Snake := NewSnake { X := 3, Y := 2 } } : Game).State = .StateRunning ∧
    ({ New 4 4 with Snake := NewSnake { X := 3, Y := 2 } } : Game).Snake.Body ≠ [] ∧
    ∃ after, ({ New 4 4 with Snake := NewSnake { X := 3, Y := 2 } } : Game).Tick =
        some (after, []) ∧ after.State = .StateOver := by
  refine ⟨rfl, by simp [NewSnake], ?_⟩
  obtain ⟨moved, head, after, eaten, hmove, hhead, ht, hiff, hover, _⟩ :=
    Tick_over_iff_collision ({ New 4 4 with Snake := NewSnake { X := 3, Y := 2 } } : Game)
      rfl (by simp [NewSnake])
  have hm : ({ New 4 4 with Snake := NewSnake { X := 3, Y := 2 } } : Game).Snake.Move =
      some { Body := [{ X := 4, Y := 2 }, { X := 3, Y := 2 }, { X := 2, Y := 2 }],
             Direction := .Right, Growing := false } := by decide
  rw [hm] at hmove
  cases hmove
  cases hhead
  have hst : after.State = .StateOver := hiff.mpr (Or.inl (by decide))
  obtain ⟨he, _⟩ := hover hst
  subst he
  exact ⟨after, ht, hst⟩

/-- C3: for every game whose state is Paused or Over, `Tick` is a no-op: it
returns no pods and leaves the whole game (snake body, direction and growth
flag, pod registry, `State`, `Score`, `KillCount`) as it was. -/
theorem Tick_noop_unless_running (g : Game)
    (h : g.State = .StatePaused ∨ g.State = .StateOver) :
    g.Tick = some (g, []) := by
  unfold Game.Tick
  rw [if_pos]
  rcases h with h | h <;> simp [h]

/-- C3, on a paused 20x20 game holding one pod in front of the head: the
state is Paused and `Tick` gives the game back with nothing eaten. -/
theorem Tick_noop_unless_running_witness :
    (({ New 20 20 with
          Pods := [{ Pos := { X := 6, Y := 10 }, Name := "web-0", Namespace := "default" }],
          State := .StatePaused } : Game).State = .StatePaused ∨
      ({ New 20 20 with
          Pods := [{ Pos := { X := 6, Y := 10 }, Name := "web-0", Namespace := "default" }],
          State := .StatePaused } : Game).State = .StateOver) ∧
    ({ New 20 20 with
        Pods := [{ Pos := { X := 6, Y := 10 }, Name := "web-0", Namespace := "default" }],
        State := .StatePaused } : Game).Tick =
      some ({ New 20 20 with
        Pods := [{ Pos := { X := 6, Y := 10 }, Name := "web-0", Namespace := "default" }],
        State := .StatePaused }, []) :=
  ⟨Or.inl rfl, Tick_noop_unless_running _ (Or.inl rfl)⟩

/-! ## The game: PlacePod -/

/-- C4: for every game with `len(Pods) < MaxPods` and every run of the random
source on which `PlacePod name namespace` returns, it returns true and the new
registry is the old registry followed by exactly one new pod carrying the
given name and namespace, whose position is inside the board, is not any cell
of the snake's body and is not the position of any pod already in the
registry; the snake, `Board`, `State`, `Score`, `KillCount` and `MaxPods` are
unchanged.  (On a board whose width or height is not positive the sampling
panics, so positivity need not be assumed.) -/
theorem PlacePod_appends_free_pod (g : Game) (name ns : String) (draws : List Nat)
    (after : Game) (ok : Bool) (rest : List Nat)
    (hlen : (g.Pods.length : Int) < g.MaxPods)
    (hret : g.PlacePod name ns draws = some (after, ok, rest)) :
    ok = true ∧
    ∃ pos : Position,
      after.Pods = g.Pods ++ [{ Pos := pos, Name := name, Namespace := ns }] ∧
      g.Board.IsOutOfBounds pos = false ∧
      pos ∉ g.Snake.Body ∧
      (∀ q ∈ g.Pods, q.Pos ≠ pos) ∧
      after.Snake = g.Snake ∧ after.Board = g.Board ∧ after.State = g.State ∧
      after.Score = g.Score ∧ after.KillCount = g.KillCount ∧ after.MaxPods = g.MaxPods := by
  unfold Game.PlacePod at hret
  rw [if_neg (by omega)] at hret
  cases hs : g.Board.RandomPosition (occupiedCells g) draws with
  | none => simp [hs] at hret
  | some pr =>
    obtain ⟨pos, rest1⟩ := pr
    simp only [hs, Option.some.injEq, Prod.mk.injEq] at hret
    obtain ⟨hafter, hok, _⟩ := hret
    obtain ⟨hfree, hin⟩ :=
      sampled_free_in_bounds g.Board (occupiedCells g) draws pos rest1 hs
    rw [mem_occupiedCells] at hfree
    subst hafter
    refine ⟨hok.symm, pos, rfl, hin, fun hb => hfree (Or.inl hb), ?_, rfl, rfl, rfl, rfl, rfl, rfl⟩
    intro q hq hpos
    exact hfree (Or.inr ⟨q, hq, hpos⟩)

/-- C4, on the test's input: `New 20 20` and the draws 7, 8 place "test-pod"
at (7,8). -/
theorem PlacePod_appends_free_pod_witness :
    (New 20 20).PlacePod "test-pod" "default" [7, 8] =
      some ({ New 20 20 with
        Pods := [{ Pos := { X := 7, Y := 8 }, Name := "test-pod", Namespace := "default" }] },
        true, []) ∧
    ((New 20 20).Pods.length : Int) < (New 20 20).MaxPods ∧
    (New 20 20).Board.IsOutOfBounds { X := 7, Y := 8 } = false ∧
    ({ X := 7, Y := 8 } : Position) ∉ (New 20 20).Snake.Body := by
  have hret : (New 20 20).PlacePod "test-pod" "default" [7, 8] =
      some ({ New 20 20 with
        Pods := [{ Pos := { X := 7, Y := 8 }, Name := "test-pod", Namespace := "default" }] },
        true, []) := by decide
  obtain ⟨_, pos, hp, hin, hbody, _⟩ :=
    PlacePod_appends_free_pod (New 20 20) "test-pod" "default" [7, 8] _ true [] (by decide) hret
  have hpos : pos = { X := 7, Y := 8 } := by
    simp [New] at hp
    exact hp.symm
  subst hpos
  exact ⟨hret, by decide, hin, hbody⟩

/-- C5: for every game, `PlacePod` returns false if and only if
`len(Pods) >= MaxPods` (and then it does return, whatever the random source),
and when it returns false the whole game is unchanged and nothing was drawn. -/
theorem PlacePod_false_iff_full (g : Game) (name ns : String) (draws : List Nat) :
    ((∃ after rest, g.PlacePod name ns draws = some (after, false, rest)) ↔
      g.MaxPods ≤ (g.Pods.length : Int)) ∧
    (g.MaxPods ≤ (g.Pods.length : Int) → g.PlacePod name ns draws = some (g, false, draws)) ∧
    (∀ after rest, g.PlacePod name ns draws = some (after, false, rest) →
      after = g ∧ rest = draws) := by
  have hfull : g.MaxPods ≤ (g.Pods.length : Int) →
      g.PlacePod name ns draws = some (g, false, draws) := by
    intro h
    unfold Game.PlacePod
    rw [if_pos h]
  have hback : ∀ after rest, g.PlacePod name ns draws = some (after, false, rest) →
      g.MaxPods ≤ (g.Pods.length : Int) := by
    intro after rest hret
    by_contra hlt
    unfold Game.PlacePod at hret
    rw [if_neg hlt] at hret
    cases hs : g.Board.RandomPosition (occupiedCells g) draws with
    | none => simp [hs] at hret
    | some pr => simp [hs] at hret
  refine ⟨⟨fun ⟨after, rest, h⟩ => hback after rest h, fun h => ⟨g, draws, hfull h⟩⟩, hfull, ?_⟩
  intro after rest hret
  have h := hfull (hback after rest hret)
  rw [h] at hret
  simp only [Option.some.injEq, Prod.mk.injEq, true_and] at hret
  exact ⟨hret.1.symm, hret.2.symm⟩

/-- C5, on the spec's scenario: with 3 pods placed and `MaxPods = 3`,
`PlacePod` returns false and the registry size stays 3. -/
theorem PlacePod_full_registry_example :
    (New 20 20).PlacePod "a" "default" [7, 8, 9, 9, 1, 2, 3, 4] =
      some ({ New 20 20 with
        Pods := [{ Pos := { X := 7, Y := 8 }, Name := "a", Namespace := "default" }] },
        true, [9, 9, 1, 2, 3, 4]) ∧
    ({ New 20 20 with
        Pods := [{ Pos := { X := 7, Y := 8 }, Name := "a", Namespace := "default" }] }
      : Game).PlacePod "b" "default" [9, 9, 1, 2, 3, 4] =
      some ({ New 20 20 with
        Pods := [{ Pos := { X := 7, Y := 8 }, Name := "a", Namespace := "default" },
                 { Pos := { X := 9, Y := 9 }, Name := "b", Namespace := "default" }] },
        true, [1, 2, 3, 4]) ∧
    ({ New 20 20 with
        Pods := [{ Pos := { X := 7, Y := 8 }, Name := "a", Namespace := "default" },
                 { Pos := { X := 9, Y := 9 }, Name := "b", Namespace := "default" }] }
      : Game).PlacePod "c" "default" [1, 2, 3, 4] =
      some ({ New 20 20 with
        Pods := [{ Pos := { X := 7, Y := 8 }, Name := "a", Namespace := "default" },
                 { Pos := { X := 9, Y := 9 }, Name := "b", Namespace := "default" },
                 { Pos := { X := 1, Y := 2 }, Name := "c", Namespace := "default" }] },
        true, [3, 4]) ∧
    ({ New 20 20 with
        Pods := [{ Pos := { X := 7, Y := 8 }, Name := "a", Namespace := "default" },
                 { Pos := { X := 9, Y := 9 }, Name := "b", Namespace := "default" },
                 { Pos := { X := 1, Y := 2 }, Name := "c", Namespace := "default" }] }
      : Game).PlacePod "d" "default" [3, 4] =
      some ({ New 20 20 with
        Pods := [{ Pos := { X := 7, Y := 8 }, Name := "a", Namespace := "default" },
                 { Pos := { X := 9, Y := 9 }, Name := "b", Namespace := "default" },
                 { Pos := { X := 1, Y := 2 }, Name := "c", Namespace := "default" }] },
        false, [3, 4]) := by
  refine ⟨by decide, by decide, by decide, by decide⟩

/-! ## Lemmas on the message handler -/

/-- The kill loop in closed form: one log entry and one `killPodCmd` per pod,
in the order of the pods. -/
theorem killLoop_eq (eaten : List Pod) :
    ∀ (killLog : List String) (cmds : List Cmd),
      killLoop eaten killLog cmds =
        (killLog ++ eaten.map (fun pod => pod.Namespace ++ "/" ++ pod.Name),
          cmds ++ eaten.map (fun pod => Cmd.killPodCmd pod.Name pod.Namespace)) := by
  induction eaten with
  | nil => intro killLog cmds; simp [killLoop]
  | cons a t ih =>
    intro killLog cmds
    unfold killLoop
    rw [ih]
    simp

/-- A batch of `killPodCmd` holds no `fetchPodCmd`. -/
theorem countFetch_kills (eaten : List Pod) :
    countFetch (eaten.map (fun pod => Cmd.killPodCmd pod.Name pod.Namespace)) = 0 := by
  unfold countFetch
  rw [List.count_eq_zero]
  intro hmem
  obtain ⟨pod, _, hpod⟩ := List.mem_map.mp hmem
  cases hpod

/-- The handler of `tickMsg` in closed form. -/
theorem Update_tickMsg (m : GameModel) (draws : List Nat) (g : Game) (eaten : List Pod)
    (ht : m.game.Tick = some (g, eaten)) :
    m.Update .tickMsg draws =
      some ({ m with
              game := g,
              killLog := m.killLog ++ eaten.map (fun pod => pod.Namespace ++ "/" ++ pod.Name),
              fetching := m.fetching || decide ((g.Pods.length : Int) < g.MaxPods) },
        eaten.map (fun pod => Cmd.killPodCmd pod.Name pod.Namespace) ++
          (if (g.Pods.length : Int) < g.MaxPods ∧ m.fetching = false then [Cmd.fetchPodCmd]
            else []) ++ [Cmd.tickCmd m.tickRate],
        draws) := by
  unfold GameModel.Update
  simp only [ht, killLoop_eq, List.nil_append]
  by_cases hc : (g.Pods.length : Int) < g.MaxPods ∧ m.fetching = false
  · rw [if_pos hc, if_pos hc]
    simp [hc.1, hc.2]
  · rw [if_neg hc, if_neg hc]
    have hf : (m.fetching || decide ((g.Pods.length : Int) < g.MaxPods)) = m.fetching := by
      cases hfe : m.fetching with
      | true => simp
      | false =>
        have : ¬ (g.Pods.length : Int) < g.MaxPods := fun h => hc ⟨h, hfe⟩
        simp [this]
    rw [hf]
    simp

/-- What a handler does to the flag `fetching` and how many fetches it issues:
a `podPlacedMsg` clears the flag and issues none; any other message either
keeps the flag and issues none, or finds the flag clear, sets it and issues
one.  No handler issues a fetch without setting the flag. -/
theorem Update_fetch_effect (m : GameModel) (msg : Msg) (draws : List Nat)
    (m1 : GameModel) (cmds : List Cmd) (rest : List Nat)
    (h : m.Update msg draws = some (m1, cmds, rest)) :
    (completesFetch msg = 1 ∧ m1.fetching = false ∧ countFetch cmds = 0) ∨
    (completesFetch msg = 0 ∧ m1.fetching = m.fetching ∧ countFetch cmds = 0) ∨
    (completesFetch msg = 0 ∧ m.fetching = false ∧ m1.fetching = true ∧ countFetch cmds = 1) := by
  cases msg with
  | KeyMsg key =>
    right; left
    unfold GameModel.Update at h
    simp only at h
    split_ifs at h <;>
      (simp only [Option.some.injEq, Prod.mk.injEq] at h
       obtain ⟨hm, hc, _⟩ := h
       subst hm; subst hc
       exact ⟨rfl, rfl, by decide⟩)
  | WindowSizeMsg w hgt =>
    right; left
    simp only [GameModel.Update, Option.some.injEq, Prod.mk.injEq] at h
    obtain ⟨hm, hc, _⟩ := h
    subst hm; subst hc
    exact ⟨rfl, rfl, by decide⟩
  | tickMsg =>
    right
    cases ht : m.game.Tick with
    | none => simp [GameModel.Update, ht] at h
    | some r =>
      obtain ⟨g, eaten⟩ := r
      rw [Update_tickMsg m draws g eaten ht] at h
      simp only [Option.some.injEq, Prod.mk.injEq] at h
      obtain ⟨hm, hc, _⟩ := h
      subst hm; subst hc
      by_cases hc : (g.Pods.length : Int) < g.MaxPods ∧ m.fetching = false
      · right
        refine ⟨rfl, hc.2, by simp [hc.1], ?_⟩
        rw [if_pos hc]
        simp only [countFetch, List.count_append] at *
        have := countFetch_kills eaten
        simp only [countFetch] at this
        rw [this]
        simp [List.count_cons]
      · left
        refine ⟨rfl, ?_, ?_⟩
        · cases hfe : m.fetching with
          | true => simp
          | false =>
            have : ¬ (g.Pods.length : Int) < g.MaxPods := fun h => hc ⟨h, hfe⟩
            simp [this]
        · rw [if_neg hc]
          simp only [countFetch, List.count_append] at *
          have := countFetch_kills eaten
          simp only [countFetch] at this
          rw [this]
          simp [List.count_cons]
  | podPlacedMsg name ns err =>
    left
    unfold GameModel.Update at h
    simp only at h
    split_ifs at h
    · cases hp : m.game.PlacePod name ns draws with
      | none => simp [hp] at h
      | some r =>
        obtain ⟨g, ok, rest1⟩ := r
        simp only [hp, Option.some.injEq, Prod.mk.injEq] at h
        obtain ⟨hm, hc, _⟩ := h
        subst hm; subst hc
        exact ⟨rfl, rfl, by decide⟩
    · simp only [Option.some.injEq, Prod.mk.injEq] at h
      obtain ⟨hm, hc, _⟩ := h
      subst hm; subst hc
      exact ⟨rfl, rfl, by decide⟩
  | podKilledMsg name ns err =>
    right; left
    cases err with
    | none =>
      simp only [GameModel.Update, Option.some.injEq, Prod.mk.injEq] at h
      obtain ⟨hm, hc, _⟩ := h
      subst hm; subst hc
      exact ⟨rfl, rfl, by decide⟩
    | some e =>
      simp only [GameModel.Update, Option.some.injEq, Prod.mk.injEq] at h
      obtain ⟨hm, hc, _⟩ := h
      subst hm; subst hc
      exact ⟨rfl, rfl, by decide⟩
  | otherMsg =>
    right; left
    simp only [GameModel.Update, Option.some.injEq, Prod.mk.injEq] at h
    obtain ⟨hm, hc, _⟩ := h
    subst hm; subst hc
    exact ⟨rfl, rfl, by decide⟩

/-! ## The game: TogglePause and the Over state -/

/-- C11: `TogglePause` maps state Running to Paused, Paused to Running and Over
to Over and changes no other field of the game; hence calling it twice gives
back the starting game, and calling it from Over has no effect. -/
theorem TogglePause_flips_running_paused (g : Game) :
    g.TogglePause =
      { g with
        State := match g.State with
          | .StateRunning => .StatePaused
          | .StatePaused => .StateRunning
          | .StateOver => .StateOver } ∧
    g.TogglePause.TogglePause = g ∧
    (({ g with State := .StateOver } : Game).TogglePause = { g with State := .StateOver }) := by
  obtain ⟨snake, board, pods, st, score, kills, maxPods⟩ := g
  cases st <;> simp [Game.TogglePause]

/-- C12, as stated, fails.  On the 4x4 board three ticks from `New` run the
snake into the right wall and the game is Over; a fetch that completes then
still has its pod appended to the registry by `PlacePod`, and a direction key
still turns the snake, both directly and through `Update`. -/
theorem Over_game_still_mutated :
    (New 4 4).calls [.Tick, .Tick, .Tick] =
      some { Snake := { Body := [{ X := 4, Y := 2 }, { X := 3, Y := 2 }, { X := 2, Y := 2 }],
                        Direction := .Right, Growing := false },
             Board := { Width := 4, Height := 4 }, Pods := [], State := .StateOver,
             Score := 0, KillCount := 0, MaxPods := 3 } ∧
    (({ Snake := { Body := [{ X := 4, Y := 2 }, { X := 3, Y := 2 }, { X := 2, Y := 2 }],
                   Direction := .Right, Growing := false },
        Board := { Width := 4, Height := 4 }, Pods := [], State := .StateOver,
        Score := 0, KillCount := 0, MaxPods := 3 } : Game).PlacePod "web-0" "default" [1, 1]).map
        (fun r => (r.1.Pods, r.1.State)) =
      some ([{ Pos := { X := 1, Y := 1 }, Name := "web-0", Namespace := "default" }],
        .StateOver) ∧
    (({ Body := [{ X := 4, Y := 2 }, { X := 3, Y := 2 }, { X := 2, Y := 2 }],
        Direction := .Right, Growing := false } : Snake).SetDirection .Up).Direction = .Up ∧
    (({ NewGameModel with
        game := { Snake := { Body := [{ X := 4, Y := 2 }, { X := 3, Y := 2 }, { X := 2, Y := 2 }],
                             Direction := .Right, Growing := false },
                  Board := { Width := 4, Height := 4 }, Pods := [], State := .StateOver,
                  Score := 0, KillCount := 0, MaxPods := 3 } } : GameModel).Update
        (.podPlacedMsg "web-0" "default" none) [1, 1]).map
        (fun r => (r.1.game.Pods, r.1.game.State)) =
      some ([{ Pos := { X := 1, Y := 1 }, Name := "web-0", Namespace := "default" }],
        .StateOver) ∧
    (({ NewGameModel with
        game := { Snake := { Body := [{ X := 4, Y := 2 }, { X := 3, Y := 2 }, { X := 2, Y := 2 }],
                             Direction := .Right, Growing := false },
                  Board := { Width := 4, Height := 4 }, Pods := [], State := .StateOver,
                  Score := 0, KillCount := 0, MaxPods := 3 } } : GameModel).Update
        (.KeyMsg "up") []).map
        (fun r => (r.1.game.Snake.Direction, r.1.game.State)) =
      some (.Up, .StateOver) := by
  refine ⟨by decide, by decide, by decide, by decide, by decide⟩

/-- C12, amended: for every game in state Over, `Tick` and `TogglePause` leave
the whole game unchanged; `SetDirection` leaves the body, the growth flag and
the pod registry unchanged, and keeps the direction only when the requested
one is its opposite (otherwise the direction becomes the requested one);
`PlacePod`, when it returns, leaves the snake and the state unchanged, and
leaves the registry unchanged exactly when `len(Pods) >= MaxPods` (below
capacity it appends the fetched pod). -/
theorem Over_game_frozen_except_turn_and_place (g : Game) (hover : g.State = .StateOver) :
    g.Tick = some (g, []) ∧
    g.TogglePause = g ∧
    (∀ d : Direction,
      (g.Snake.SetDirection d).Body = g.Snake.Body ∧
      (g.Snake.SetDirection d).Growing = g.Snake.Growing ∧
      ({ g with Snake := g.Snake.SetDirection d } : Game).Pods = g.Pods ∧
      (g.Snake.SetDirection d).Direction =
        if opposites d = g.Snake.Direction then g.Snake.Direction else d) ∧
    (∀ (name ns : String) (draws : List Nat) (after : Game) (ok : Bool) (rest : List Nat),
      g.PlacePod name ns draws = some (after, ok, rest) →
        after.Snake = g.Snake ∧ after.State = .StateOver ∧
        (g.MaxPods ≤ (g.Pods.length : Int) → after.Pods = g.Pods) ∧
        ((g.Pods.length : Int) < g.MaxPods →
          ∃ pos, after.Pods = g.Pods ++ [{ Pos := pos, Name := name, Namespace := ns }])) := by
  refine ⟨?_, ?_, ?_, ?_⟩
  · unfold Game.Tick
    rw [if_pos (by simp [hover])]
  · unfold Game.TogglePause
    simp [hover]
  · intro d
    unfold Snake.SetDirection
    by_cases hop : opposites d = g.Snake.Direction
    · simp [hop]
    · simp [hop]
  · intro name ns draws after ok rest hret
    unfold Game.PlacePod at hret
    by_cases hfull : g.MaxPods ≤ (g.Pods.length : Int)
    · rw [if_pos hfull] at hret
      simp only [Option.some.injEq, Prod.mk.injEq] at hret
      obtain ⟨hg, _, _⟩ := hret
      subst hg
      exact ⟨rfl, hover, fun _ => rfl, fun hlt => absurd hfull (by omega)⟩
    · rw [if_neg hfull] at hret
      cases hs : g.Board.RandomPosition (occupiedCells g) draws with
      | none => simp [hs] at hret
      | some pr =>
        obtain ⟨pos, rest1⟩ := pr
        simp only [hs, Option.some.injEq, Prod.mk.injEq] at hret
        obtain ⟨hg, _, _⟩ := hret
        subst hg
        exact ⟨rfl, hover, fun h => absurd h hfull, fun _ => ⟨pos, rfl⟩⟩

/-- C12, amended, on the game that ran into the right wall of the 4x4 board:
it is Over, `Tick` gives it back unchanged, and a request to turn back Left is
ignored. -/
theorem Over_game_frozen_except_turn_and_place_witness :
    ({ Snake := { Body := [{ X := 4, Y := 2 }, { X := 3, Y := 2 }, { X := 2, Y := 2 }],
                  Direction := .Right, Growing := false },
       Board := { Width := 4, Height := 4 }, Pods := [], State := .StateOver,
       Score := 0, KillCount := 0, MaxPods := 3 } : Game).State = .StateOver ∧
    ({ Snake := { Body := [{ X := 4, Y := 2 }, { X := 3, Y := 2 }, { X := 2, Y := 2 }],
                  Direction := .Right, Growing := false },
       Board := { Width := 4, Height := 4 }, Pods := [], State := .StateOver,
       Score := 0, KillCount := 0, MaxPods := 3 } : Game).Tick =
      some ({ Snake := { Body := [{ X := 4, Y := 2 }, { X := 3, Y := 2 }, { X := 2, Y := 2 }],
                         Direction := .Right, Growing := false },
              Board := { Width := 4, Height := 4 }, Pods := [], State := .StateOver,
              Score := 0, KillCount := 0, MaxPods := 3 }, []) ∧
    (({ Body := [{ X := 4, Y := 2 }, { X := 3, Y := 2 }, { X := 2, Y := 2 }],
        Direction := .Right, Growing := false } : Snake).SetDirection .Left).Direction =
      .Right :=
  have h := Over_game_frozen_except_turn_and_place
    { Snake := { Body := [{ X := 4, Y := 2 }, { X := 3, Y := 2 }, { X := 2, Y := 2 }],
                 Direction := .Right, Growing := false },
      Board := { Width := 4, Height := 4 }, Pods := [], State := .StateOver,
      Score := 0, KillCount := 0, MaxPods := 3 } rfl
  ⟨rfl, h.1, (h.2.2.1 .Left).2.2.2⟩

/-! ## The message loop: fetches in flight, the tick handler -/

/-- C13, the code at the failing input: `Init` issues three fetch commands at
once and leaves the flag `fetching` ("true while a pod fetch is in flight")
clear, so three fetches are in flight before any message is handled; the
first tick finds the flag clear and issues a fourth.  More than one fetch is
in flight in reachable states of the message loop. -/
theorem fetches_in_flight_exceed_one :
    NewGameModel.Init = [.tickCmd 150000000, .fetchPodCmd, .fetchPodCmd, .fetchPodCmd] ∧
    (Sched.start.run []).map (fun s => (s.inflight, s.model.fetching)) = some (3, false) ∧
    (Sched.start.run [(.tickMsg, [])]).map (fun s => (s.inflight, s.model.fetching)) =
      some (4, true) ∧
    ¬ (∀ (trace : List (Msg × List Nat)) (s : Sched),
        Sched.start.run trace = some s → s.inflight ≤ 1) := by
  refine ⟨by decide, by decide, by decide, ?_⟩
  intro hall
  have h3 := hall [] Sched.start rfl
  revert h3
  decide

/-- C14: for every game model on which `Game.Tick` returns (the game is not
Running, or its snake has a body), handling one tick message issues, for the
pods returned by `Game.Tick` and in the same order, exactly one delete command
per pod carrying that pod's name and namespace, appends exactly one kill-log
entry "namespace/name" per pod, and includes exactly one command that
reschedules the next tick, whatever the game's state. -/
theorem Update_tick_kills_eaten_and_reschedules (m : GameModel) (draws : List Nat)
    (hok : m.game.State ≠ .StateRunning ∨ m.game.Snake.Body ≠ []) :
    ∃ g eaten m1 cmds,
      m.game.Tick = some (g, eaten) ∧
      m.Update .tickMsg draws = some (m1, cmds, draws) ∧
      m1.game = g ∧
      cmds.filter Cmd.isKill = eaten.map (fun pod => Cmd.killPodCmd pod.Name pod.Namespace) ∧
      m1.killLog = m.killLog ++ eaten.map (fun pod => pod.Namespace ++ "/" ++ pod.Name) ∧
      cmds.filter Cmd.isTick = [Cmd.tickCmd m.tickRate] := by
  obtain ⟨g, eaten, ht⟩ := Tick_returns m.game hok
  refine ⟨g, eaten, _, _, ht, Update_tickMsg m draws g eaten ht, rfl, ?_, rfl, ?_⟩
  · have hk : (eaten.map (fun pod => Cmd.killPodCmd pod.Name pod.Namespace)).filter Cmd.isKill =
        eaten.map (fun pod => Cmd.killPodCmd pod.Name pod.Namespace) := by
      rw [List.filter_eq_self]
      intro c hc
      obtain ⟨pod, _, hpod⟩ := List.mem_map.mp hc
      subst hpod
      rfl
    rw [List.filter_append, List.filter_append, hk]
    split_ifs <;> simp [Cmd.isKill]
  · have hk : (eaten.map (fun pod => Cmd.killPodCmd pod.Name pod.Namespace)).filter Cmd.isTick =
        [] := by
      rw [List.filter_eq_nil_iff]
      intro c hc
      obtain ⟨pod, _, hpod⟩ := List.mem_map.mp hc
      subst hpod
      simp [Cmd.isTick]
    rw [List.filter_append, List.filter_append, hk]
    split_ifs <;> simp [Cmd.isTick]

/-- C14, on the new model with one pod directly ahead of the head: the tick
handler issues the delete of that pod, a fetch and the next tick, and logs
"default/test-pod". -/
theorem Update_tick_kills_eaten_and_reschedules_witness :
    (({ NewGameModel with
        game := { New 40 20 with
          Pods := [{ Pos := { X := 11, Y := 10 }, Name := "test-pod", Namespace := "default" }] } }
      : GameModel).game.State ≠ .StateRunning ∨
     ({ NewGameModel with
        game := { New 40 20 with
          Pods := [{ Pos := { X := 11, Y := 10 }, Name := "test-pod", Namespace := "default" }] } }
      : GameModel).game.Snake.Body ≠ []) ∧
    (({ NewGameModel with
        game := { New 40 20 with
          Pods := [{ Pos := { X := 11, Y := 10 }, Name := "test-pod", Namespace := "default" }] } }
      : GameModel).Update .tickMsg []).map (fun r => (r.1.killLog, r.2.1)) =
      some (["default/test-pod"],
        [.killPodCmd "test-pod" "default", .fetchPodCmd, .tickCmd 150000000]) := by
  have hok : ({ NewGameModel with
        game := { New 40 20 with
          Pods := [{ Pos := { X := 11, Y := 10 }, Name := "test-pod", Namespace := "default" }] } }
      : GameModel).game.Snake.Body ≠ [] := by decide
  obtain ⟨g, eaten, m1, cmds, _, hu, _, _, _, _⟩ :=
    Update_tick_kills_eaten_and_reschedules _ [] (Or.inr hok)
  refine ⟨Or.inr hok, ?_⟩
  rw [hu]
  have hd : (({ NewGameModel with
        game := { New 40 20 with
          Pods := [{ Pos := { X := 11, Y := 10 }, Name := "test-pod", Namespace := "default" }] } }
      : GameModel).Update .tickMsg []).map (fun r => (r.1.killLog, r.2.1)) =
      some (["default/test-pod"],
        [.killPodCmd "test-pod" "default", .fetchPodCmd, .tickCmd 150000000]) := by decide
  rw [hu] at hd
  exact hd

/-! ## Running into the wall -/

/-- Once the game is Over, any number of further ticks gives it back. -/
theorem ticks_of_over (n : Nat) (g : Game) (hover : g.State = .StateOver) :
    ticks n g = some g := by
  induction n with
  | zero => rfl
  | succ k ih =>
    have ht : g.Tick = some (g, []) := by
      unfold Game.Tick
      rw [if_pos (by simp [hover])]
    unfold ticks
    simp only [ht]
    exact ih

/-- One tick of a running snake that heads Right: the board is kept, and the
game is either Over or still Running and heading Right with the head on the
next cell, inside the board. -/
theorem Tick_heading_right (g : Game) (hd : Position) (tl : List Position)
    (hrun : g.State = .StateRunning) (hdir : g.Snake.Direction = .Right)
    (hbody : g.Snake.Body = hd :: tl) :
    ∃ after eaten, g.Tick = some (after, eaten) ∧ after.Board = g.Board ∧
      (after.State = .StateOver ∨
        (after.State = .StateRunning ∧ after.Snake.Direction = .Right ∧
          0 ≤ wrapInt (hd.X + 1) ∧ wrapInt (hd.X + 1) < g.Board.Width ∧
          ∃ tl1, after.Snake.Body = { X := wrapInt (hd.X + 1), Y := hd.Y } :: tl1)) := by
  have hmove := Move_eq g.Snake hd tl hbody
  rw [hdir] at hmove
  generalize (if g.Snake.Growing = true then g.Snake.Body else g.Snake.Body.dropLast) = behind
    at hmove
  have hhead : ({ Body := nextCell .Right hd :: behind, Direction := .Right, Growing := false }
      : Snake).Head = some { X := wrapInt (hd.X + 1), Y := hd.Y } := rfl
  by_cases hout : g.Board.IsOutOfBounds { X := wrapInt (hd.X + 1), Y := hd.Y } = true
  · exact ⟨_, _, Tick_out_of_bounds g _ _ hrun hmove hhead hout, rfl, Or.inl rfl⟩
  · have hin : g.Board.IsOutOfBounds { X := wrapInt (hd.X + 1), Y := hd.Y } = false := by
      simpa using hout
    by_cases hself : ({ X := wrapInt (hd.X + 1), Y := hd.Y } : Position) ∈
        ({ Body := nextCell .Right hd :: behind, Direction := .Right, Growing := false }
          : Snake).Body.tail
    · exact ⟨_, _, Tick_self_collision g _ _ hrun hmove hhead hin hself, rfl, Or.inl rfl⟩
    · have hbounds := hin
      simp only [Board.IsOutOfBounds, Bool.or_eq_false_iff, decide_eq_false_iff_not, not_lt,
        not_le, ge_iff_le] at hbounds
      exact ⟨_, _, Tick_clear g _ _ hrun hmove hhead hin hself, rfl,
        Or.inr ⟨hrun, rfl, hbounds.1.1.1, hbounds.1.1.2, _, rfl⟩⟩

/-- After `n` ticks without a turn, a game whose head holds an `int64` value
left of the right wall is Over, or still Running with the head `n` cells
further right and still left of the wall. -/
theorem ticks_heading_right (w x0 : Int) (n : Nat) :
    ∀ (k : Nat) (g : Game), g.Board.Width = w →
      (g.State = .StateOver ∨
        (g.State = .StateRunning ∧ g.Snake.Direction = .Right ∧
          ∃ hd tl, g.Snake.Body = hd :: tl ∧
            hd.X = x0 + k ∧ -2 ^ 63 ≤ hd.X ∧ hd.X < 2 ^ 63 ∧ hd.X < w)) →
      ∃ after, ticks n g = some after ∧ after.Board.Width = w ∧
        (after.State = .StateOver ∨
          (after.State = .StateRunning ∧ after.Snake.Direction = .Right ∧
            ∃ hd tl, after.Snake.Body = hd :: tl ∧
              hd.X = x0 + (k + n : Nat) ∧ -2 ^ 63 ≤ hd.X ∧ hd.X < 2 ^ 63 ∧ hd.X < w)) := by
  induction n with
  | zero =>
    intro k g hw hinv
    exact ⟨g, rfl, hw, by simpa using hinv⟩
  | succ j ih =>
    intro k g hw hinv
    rcases hinv with hover | ⟨hrun, hdir, hd, tl, hbody, hx, hlo, hhi, _⟩
    · refine ⟨g, ticks_of_over _ g hover, hw, Or.inl hover⟩
    · obtain ⟨after, eaten, ht, hboard, hafter⟩ := Tick_heading_right g hd tl hrun hdir hbody
      have hstep : ticks (j + 1) g = ticks j after := by
        rw [ticks]; simp only [ht]
      have hw1 : after.Board.Width = w := by rw [hboard]; exact hw
      have hinv1 : after.State = .StateOver ∨
          (after.State = .StateRunning ∧ after.Snake.Direction = .Right ∧
            ∃ hd1 tl1, after.Snake.Body = hd1 :: tl1 ∧
              hd1.X = x0 + (k + 1 : Nat) ∧ -2 ^ 63 ≤ hd1.X ∧ hd1.X < 2 ^ 63 ∧ hd1.X < w) := by
        rcases hafter with hover | ⟨hrun1, hdir1, hge, hlt, tl1, hbody1⟩
        · exact Or.inl hover
        · have hnext : wrapInt (hd.X + 1) = hd.X + 1 := by
            unfold wrapInt at hge ⊢
            omega
          refine Or.inr ⟨hrun1, hdir1, _, tl1, hbody1, ?_, ?_, ?_, ?_⟩
          · show wrapInt (hd.X + 1) = x0 + ((k + 1 : Nat) : Int)
            rw [hnext, hx]; push_cast; ring
          · show -2 ^ 63 ≤ wrapInt (hd.X + 1)
            exact (wrapInt_range _).1
          · show wrapInt (hd.X + 1) < 2 ^ 63
            exact (wrapInt_range _).2
          · show wrapInt (hd.X + 1) < w
            rw [← hw]; exact hlt
      obtain ⟨fin, hfin, hwf, hinvf⟩ := ih (k + 1) after hw1 hinv1
      refine ⟨fin, by rw [hstep]; exact hfin, hwf, ?_⟩
      have hk : k + 1 + j = k + (j + 1) := by omega
      rw [hk] at hinvf
      exact hinvf

/-- C15: for every game in state Running whose snake is `NewSnake start` with
`start.X < W`, `W` the width of its board (any height, any pods) and `start.X`
a Go `int` (at most `MaxInt64`), if no direction change is made then after
every number `n >= W - start.X` of `Tick` calls the state is Over, and every
later `Tick` (one or several) leaves the whole game unchanged.  (The bounds
`W >= 1` and `0 <= start.X` are not needed.) -/
theorem ticks_run_into_wall (g : Game) (start : Position) (n : Nat)
    (hrun : g.State = .StateRunning) (hsnake : g.Snake = NewSnake start)
    (hx : start.X < g.Board.Width) (hn : g.Board.Width - start.X ≤ (n : Int))
    (hint : start.X < 2 ^ 63) :
    ∃ after, ticks n g = some after ∧ after.State = .StateOver ∧
      after.Tick = some (after, []) ∧ ∀ k : Nat, ticks k after = some after := by
  have hdir : g.Snake.Direction = .Right := by rw [hsnake]; rfl
  have hbody : g.Snake.Body = start :: [{ X := wrapInt (start.X - 1), Y := start.Y },
      { X := wrapInt (start.X - 2), Y := start.Y }] := by rw [hsnake]; rfl
  have hfinish : ∀ after, after.State = .StateOver →
      after.Tick = some (after, []) ∧ ∀ k : Nat, ticks k after = some after := by
    intro after hover
    refine ⟨?_, fun k => ticks_of_over k after hover⟩
    unfold Game.Tick
    rw [if_pos (by simp [hover])]
  by_cases hlo : -2 ^ 63 ≤ start.X
  · have hinv : g.State = .StateOver ∨
        (g.State = .StateRunning ∧ g.Snake.Direction = .Right ∧
          ∃ hd tl, g.Snake.Body = hd :: tl ∧
            hd.X = start.X + (0 : Nat) ∧ -2 ^ 63 ≤ hd.X ∧ hd.X < 2 ^ 63 ∧
              hd.X < g.Board.Width) :=
      Or.inr ⟨hrun, hdir, start, _, hbody, by simp, hlo, hint, hx⟩
    obtain ⟨after, hafter, _, hfin⟩ := ticks_heading_right g.Board.Width start.X n 0 g rfl hinv
    have hover : after.State = .StateOver := by
      rcases hfin with hover | ⟨_, _, hd, tl, _, hxn, _, _, hlt⟩
      · exact hover
      · rw [hxn] at hlt
        push_cast at hlt
        omega
    exact ⟨after, hafter, hover, hfinish after hover⟩
  · obtain ⟨j, hj⟩ : ∃ j : Nat, n = j + 1 := ⟨n - 1, by omega⟩
    subst hj
    obtain ⟨first, eaten, ht, hboard, hfirst⟩ := Tick_heading_right g start _ hrun hdir hbody
    have hstep : ticks (j + 1) g = ticks j first := by
      rw [ticks]; simp only [ht]
    rcases hfirst with hover1 | ⟨hrun1, hdir1, hge, hlt, tl1, hbody1⟩
    · exact ⟨first, by rw [hstep]; exact ticks_of_over j first hover1, hover1,
        hfinish first hover1⟩
    · have hw1 : first.Board.Width = g.Board.Width := by rw [hboard]
      have hinv : first.State = .StateOver ∨
          (first.State = .StateRunning ∧ first.Snake.Direction = .Right ∧
            ∃ hd tl, first.Snake.Body = hd :: tl ∧
              hd.X = wrapInt (start.X + 1) + (0 : Nat) ∧ -2 ^ 63 ≤ hd.X ∧ hd.X < 2 ^ 63 ∧
                hd.X < g.Board.Width) :=
        Or.inr ⟨hrun1, hdir1, _, tl1, hbody1, by simp, (wrapInt_range _).1,
          (wrapInt_range _).2, hlt⟩
      obtain ⟨after, hafter, _, hfin⟩ :=
        ticks_heading_right g.Board.Width (wrapInt (start.X + 1)) j 0 first hw1 hinv
      have hover : after.State = .StateOver := by
        rcases hfin with hover | ⟨_, _, hd, tl, _, hxn, _, hhi, hlt1⟩
        · exact hover
        · rw [hxn] at hhi hlt1
          push_cast at hhi hlt1 hn
          omega
      exact ⟨after, by rw [hstep]; exact hafter, hover, hfinish after hover⟩

/-- C15, on the test's input: on the 4x4 board with the snake started at
(2,2), the game is Over after 10 ticks. -/
theorem ticks_run_into_wall_witness :
    ({ New 4 4 with Snake := NewSnake { X := 2, Y := 2 } } : Game).State = .StateRunning ∧
    (2 : Int) < 4 ∧ (4 : Int) - 2 ≤ ((10 : Nat) : Int) ∧ (2 : Int) < 2 ^ 63 ∧
    ∃ after, ticks 10 ({ New 4 4 with Snake := NewSnake { X := 2, Y := 2 } } : Game) =
        some after ∧ after.State = .StateOver := by
  obtain ⟨after, ht, hover, _, _⟩ :=
    ticks_run_into_wall ({ New 4 4 with Snake := NewSnake { X := 2, Y := 2 } } : Game)
      { X := 2, Y := 2 } 10 rfl rfl (by decide) (by decide) (by decide)
  exact ⟨rfl, by decide, by decide, by decide, after, ht, hover⟩

/-! ## Two turns between two moves -/

/-- C16, the code at the failing input: after a `Move` to the right, the calls
`SetDirection(Up)` and `SetDirection(Left)` leave the snake heading Left, and
the next `Move` puts the head back on the segment behind it; in a game, and
through the key handler, the second tick ends the game. -/
theorem SetDirection_twice_reverses :
    (NewSnake { X := 5, Y := 5 }).Move =
      some { Body := [{ X := 6, Y := 5 }, { X := 5, Y := 5 }, { X := 4, Y := 5 }],
             Direction := .Right, Growing := false } ∧
    ((({ Body := [{ X := 6, Y := 5 }, { X := 5, Y := 5 }, { X := 4, Y := 5 }],
         Direction := .Right, Growing := false } : Snake).SetDirection .Up).SetDirection
        .Left).Direction = .Left ∧
    ((({ Body := [{ X := 6, Y := 5 }, { X := 5, Y := 5 }, { X := 4, Y := 5 }],
         Direction := .Right, Growing := false } : Snake).SetDirection .Up).SetDirection
        .Left).Move =
      some { Body := [{ X := 5, Y := 5 }, { X := 6, Y := 5 }, { X := 5, Y := 5 }],
             Direction := .Left, Growing := false } ∧
    ({ Body := [{ X := 5, Y := 5 }, { X := 6, Y := 5 }, { X := 5, Y := 5 }],
       Direction := .Left, Growing := false } : Snake).CollidesWithSelf = some true ∧
    ((New 20 20).calls [.Tick, .SetDirection .Up, .SetDirection .Left, .Tick]).map
        (fun g => (g.Snake.Body, g.State)) =
      some ([{ X := 5, Y := 10 }, { X := 6, Y := 10 }, { X := 5, Y := 10 }], .StateOver) ∧
    (Sched.start.run
        [(.tickMsg, []), (.KeyMsg "up", []), (.KeyMsg "left", []), (.tickMsg, [])]).map
        (fun s => (s.model.game.Snake.Body, s.model.game.State)) =
      some ([{ X := 10, Y := 10 }, { X := 11, Y := 10 }, { X := 10, Y := 10 }], .StateOver) := by
  refine ⟨by decide, by decide, by decide, by decide, by decide, by decide⟩

/-! ## Non-overlapping placement -/

/-- Whatever `Move` returns has a body. -/
theorem Move_body_ne_nil (s moved : Snake) (h : s.Move = some moved) : moved.Body ≠ [] := by
  cases hb : s.Body with
  | nil => simp [Snake.Move, Snake.Head, hb] at h
  | cons hd tl =>
    rw [Move_eq s hd tl hb] at h
    cases h
    simp

/-- The three ways in which `Tick` returns: the game is given back with nothing
eaten; the moved snake hit a wall or itself and nothing is eaten; or the pods
on the new head are eaten and the others kept. -/
theorem Tick_cases (g after : Game) (eaten : List Pod) (h : g.Tick = some (after, eaten)) :
    (after = g ∧ eaten = []) ∨
    (∃ moved, g.Snake.Move = some moved ∧ after.Snake = moved ∧ after.Pods = g.Pods ∧
      eaten = []) ∨
    (∃ moved head, g.Snake.Move = some moved ∧ after.Snake.Body = moved.Body ∧
      after.Pods = g.Pods.filter (fun pod => decide (pod.Pos ≠ head)) ∧
      eaten = g.Pods.filter (fun pod => decide (pod.Pos = head))) := by
  by_cases hrun : g.State = .StateRunning
  · cases hb : g.Snake.Body with
    | nil => simp [Game.Tick, hrun, Snake.Move, Snake.Head, hb] at h
    | cons hd tl =>
      obtain ⟨moved, head, hmove, hhead⟩ := Move_returns g.Snake (by rw [hb]; simp)
      by_cases hout : g.Board.IsOutOfBounds head = true
      · rw [Tick_out_of_bounds g moved head hrun hmove hhead hout] at h
        simp only [Option.some.injEq, Prod.mk.injEq] at h
        obtain ⟨ha, he⟩ := h
        subst ha; subst he
        exact Or.inr (Or.inl ⟨moved, hmove, rfl, rfl, rfl⟩)
      · have hin : g.Board.IsOutOfBounds head = false := by simpa using hout
        by_cases hself : head ∈ moved.Body.tail
        · rw [Tick_self_collision g moved head hrun hmove hhead hin hself] at h
          simp only [Option.some.injEq, Prod.mk.injEq] at h
          obtain ⟨ha, he⟩ := h
          subst ha; subst he
          exact Or.inr (Or.inl ⟨moved, hmove, rfl, rfl, rfl⟩)
        · rw [Tick_clear g moved head hrun hmove hhead hin hself] at h
          simp only [Option.some.injEq, Prod.mk.injEq] at h
          obtain ⟨ha, he⟩ := h
          subst ha; subst he
          exact Or.inr (Or.inr ⟨moved, head, hmove, rfl, rfl, rfl⟩)
  · unfold Game.Tick at h
    rw [if_pos hrun] at h
    simp only [Option.some.injEq, Prod.mk.injEq] at h
    exact Or.inl ⟨h.1.symm, h.2.symm⟩

/-- Among pods at pairwise distinct positions at most one is on a given
cell. -/
theorem filter_on_cell_length_le_one (pods : List Pod) (head : Position)
    (hd : pods.Pairwise (fun a b => a.Pos ≠ b.Pos)) :
    (pods.filter (fun pod => decide (pod.Pos = head))).length ≤ 1 := by
  induction pods with
  | nil => simp
  | cons a t ih =>
    rw [List.pairwise_cons] at hd
    by_cases ha : a.Pos = head
    · have hnone : t.filter (fun pod => decide (pod.Pos = head)) = [] := by
        rw [List.filter_eq_nil_iff]
        intro b hb
        have := hd.1 b hb
        simp only [decide_eq_true_eq]
        intro hbh
        exact this (ha.trans hbh.symm)
      simp [List.filter_cons, ha, hnone]
    · simpa [List.filter_cons, ha] using ih hd.2

/-- Every call keeps the pods at pairwise distinct positions and the snake's
body non-empty. -/
theorem call_keeps_distinct (g after : Game) (c : Call)
    (hd : g.Pods.Pairwise (fun a b => a.Pos ≠ b.Pos)) (hb : g.Snake.Body ≠ [])
    (h : g.call c = some after) :
    after.Pods.Pairwise (fun a b => a.Pos ≠ b.Pos) ∧ after.Snake.Body ≠ [] := by
  cases c with
  | Tick =>
    cases ht : g.Tick with
    | none => simp [Game.call, ht] at h
    | some r =>
      obtain ⟨g1, eaten⟩ := r
      simp only [Game.call, ht, Option.some.injEq] at h
      subst h
      rcases Tick_cases g g1 eaten ht with ⟨hg, _⟩ | ⟨moved, hm, hs, hp, _⟩ |
        ⟨moved, head, hm, hs, hp, _⟩
      · subst hg; exact ⟨hd, hb⟩
      · rw [hp, hs]; exact ⟨hd, Move_body_ne_nil _ _ hm⟩
      · rw [hp, hs]; exact ⟨hd.filter _, Move_body_ne_nil _ _ hm⟩
  | PlacePod name ns draws =>
    cases hp : g.PlacePod name ns draws with
    | none => simp [Game.call, hp] at h
    | some r =>
      obtain ⟨g1, ok, rest⟩ := r
      simp only [Game.call, hp, Option.some.injEq] at h
      subst h
      unfold Game.PlacePod at hp
      split_ifs at hp with hfull
      · simp only [Option.some.injEq, Prod.mk.injEq] at hp
        obtain ⟨hg, _, _⟩ := hp
        subst hg
        exact ⟨hd, hb⟩
      · cases hs : g.Board.RandomPosition (occupiedCells g) draws with
        | none => simp [hs] at hp
        | some pr =>
          obtain ⟨pos, rest1⟩ := pr
          simp only [hs, Option.some.injEq, Prod.mk.injEq] at hp
          obtain ⟨hg, _, _⟩ := hp
          subst hg
          obtain ⟨hfree, _⟩ := sampled_free_in_bounds g.Board (occupiedCells g) draws pos rest1 hs
          rw [mem_occupiedCells] at hfree
          refine ⟨?_, hb⟩
          simp only
          rw [List.pairwise_append]
          refine ⟨hd, List.pairwise_singleton _ _, ?_⟩
          intro a ha b hbm
          rw [List.mem_singleton] at hbm
          subst hbm
          intro hpos
          exact hfree (Or.inr ⟨a, ha, hpos⟩)
  | TogglePause =>
    simp only [Game.call, Option.some.injEq] at h
    subst h
    unfold Game.TogglePause
    split <;> exact ⟨hd, hb⟩
  | SetDirection d =>
    simp only [Game.call, Option.some.injEq] at h
    subst h
    refine ⟨hd, ?_⟩
    simp only [Snake.SetDirection]
    split_ifs <;> exact hb

/-- Every sequence of calls keeps the pods at pairwise distinct positions and
the snake's body non-empty. -/
theorem calls_keep_distinct (cs : List Call) :
    ∀ (g after : Game), g.Pods.Pairwise (fun a b => a.Pos ≠ b.Pos) → g.Snake.Body ≠ [] →
      g.calls cs = some after →
      after.Pods.Pairwise (fun a b => a.Pos ≠ b.Pos) ∧ after.Snake.Body ≠ [] := by
  induction cs with
  | nil =>
    intro g after hd hb h
    simp only [Game.calls, Option.some.injEq] at h
    subst h
    exact ⟨hd, hb⟩
  | cons c rest ih =>
    intro g after hd hb h
    unfold Game.calls at h
    cases hc : g.call c with
    | none => simp [hc] at h
    | some g1 =>
      simp only [hc] at h
      obtain ⟨hd1, hb1⟩ := call_keeps_distinct g g1 c hd hb hc
      exact ih g1 after hd1 hb1 h

/-- C17: in every game state reachable from `New w h` by any sequence of
`Tick`, `PlacePod`, `TogglePause` and `SetDirection` calls, the positions of
the pods in the registry are pairwise distinct, and therefore every `Tick`
returns, with at most one consumed pod.  (Positivity of `w` and `h` is not
needed: on other boards `PlacePod` places nothing.) -/
theorem pods_never_overlap (w h : Int) (cs : List Call) (g : Game)
    (hreach : (New w h).calls cs = some g) :
    g.Pods.Pairwise (fun a b => a.Pos ≠ b.Pos) ∧
    (∃ after eaten, g.Tick = some (after, eaten)) ∧
    ∀ after eaten, g.Tick = some (after, eaten) → eaten.length ≤ 1 := by
  obtain ⟨hd, hb⟩ := calls_keep_distinct cs (New w h) g List.Pairwise.nil
    (by simp [New, NewSnake]) hreach
  refine ⟨hd, Tick_returns g (Or.inr hb), ?_⟩
  intro after eaten ht
  rcases Tick_cases g after eaten ht with ⟨_, he⟩ | ⟨_, _, _, _, he⟩ | ⟨_, head, _, _, _, he⟩
  · rw [he]; simp
  · rw [he]; simp
  · rw [he]; exact filter_on_cell_length_le_one g.Pods head hd

/-- C17, on the 20x20 game after two pods were placed (the second one drawn on
the first and drawn again) and one tick: the two pods are on distinct cells
and the next `Tick` returns at most one pod. -/
theorem pods_never_overlap_witness :
    ((New 20 20).calls
        [.PlacePod "a" "default" [7, 10], .PlacePod "b" "default" [7, 10, 3, 4], .Tick]).map
      (fun g => g.Pods) =
      some [{ Pos := { X := 7, Y := 10 }, Name := "a", Namespace := "default" },
            { Pos := { X := 3, Y := 4 }, Name := "b", Namespace := "default" }] ∧
    ∃ g, (New 20 20).calls
        [.PlacePod "a" "default" [7, 10], .PlacePod "b" "default" [7, 10, 3, 4], .Tick] =
        some g ∧
      g.Pods.Pairwise (fun a b => a.Pos ≠ b.Pos) ∧
      ∃ after eaten, g.Tick = some (after, eaten) ∧ eaten.length ≤ 1 := by
  refine ⟨by decide, ?_⟩
  have hex : ∃ g, (New 20 20).calls
      [.PlacePod "a" "default" [7, 10], .PlacePod "b" "default" [7, 10, 3, 4], .Tick] =
      some g := ⟨_, rfl⟩
  obtain ⟨g, hg⟩ := hex
  obtain ⟨hd, ⟨after, eaten, ht⟩, hle⟩ := pods_never_overlap 20 20 _ g hg
  exact ⟨g, hg, hd, after, eaten, ht, hle after eaten ht⟩

end SnakesInAK8s
